import Mathlib

/-!
Shallow embedding of `src/MutexValidator.cpp`.

The C++ class `MutexValidator` is a reference-counted handle to a shared
block of three heap cells: a `std::recursive_mutex* Mtx`, a counter
`std::size_t* Counter`, and a flag `bool* IsValid`, plus a per-handle
field `bool IsOriginal`.  We embed the heap as two association lists keyed
by `Nat` identifiers: one mapping block ids to the shared cells
(`BlockSt`), one mapping handle ids to the per-handle state (`HandleSt`).
A freed block is removed from the block map and its id is logged in
`freed`, so "the block is freed exactly once" is expressible.

Each public operation of the class (default construction, copy
construction, copy assignment, destruction) is one step of a transition
function `step : MVState → Op → Option MVState`; `none` models undefined
behaviour (an operation on a dead handle, or touching a freed block).
Inside the C++ source each of these operations brackets its bookkeeping
in `Mtx->lock()` / `Mtx->unlock()`, so a whole operation is atomic with
respect to the shared cells; the sequential step relation reflects
exactly that atomicity.  The statement-by-statement order inside the
destructor and the assignment release path (which matters for the
set-flag-before-decrement rule and for the delete-before-unlock bug) is
embedded separately as explicit event lists, `destructorEvents` and
`assignReleaseEvents`, mirroring the source line by line.

The `std::recursive_mutex` itself is embedded as `RecMutex` (owner plus
recursion depth), with `tryLock`, `lock` and `unlock` following the
documented semantics of the C++ standard library type; the class methods
`Lock` / `TryLock` / `Unlock` forward to it verbatim.
-/

namespace MutexValidator

/-- Lookup in an association list keyed by `Nat` (first match wins, as
`std::map`-style unique keys; our invariant keeps keys distinct). -/
def alookup {α : Type} : List (Nat × α) → Nat → Option α
  | [], _ => none
  | (k, v) :: rest, k' => if k = k' then some v else alookup rest k'

/-- Replace the value stored at a key, or append the binding if absent. -/
def aupdate {α : Type} : List (Nat × α) → Nat → α → List (Nat × α)
  | [], k, v => [(k, v)]
  | (k', v') :: rest, k, v =>
    if k' = k then (k, v) :: rest else (k', v') :: aupdate rest k v

/-- Remove the first binding of a key. -/
def aerase {α : Type} : List (Nat × α) → Nat → List (Nat × α)
  | [], _ => []
  | (k', v') :: rest, k =>
    if k' = k then rest else (k', v') :: aerase rest k

/-- Keys of an association list. -/
def akeys {α : Type} (l : List (Nat × α)) : List Nat := l.map Prod.fst

/-- Shared cells of one block: the contents of `*Counter` and `*IsValid`.
(The mutex cell `*Mtx` carries no bookkeeping data; lock state is
modelled by `RecMutex` below where a claim needs it.) -/
structure BlockSt where
  refCount : Nat
  isValid : Bool
deriving Repr, DecidableEq

/-- Per-handle state of one live `MutexValidator` object: which block its
three pointers refer to, and its own `IsOriginal` field. -/
structure HandleSt where
  blk : Nat
  isOriginal : Bool
deriving Repr, DecidableEq

/-- Global state: live blocks, live handles, a fresh-block-id counter
(modelling `new`), and the log of freed block ids (each `delete` batch of
the three cells appends the block id once). -/
structure MVState where
  blocks : List (Nat × BlockSt)
  handles : List (Nat × HandleSt)
  nextBlock : Nat
  freed : List Nat
deriving Repr, DecidableEq

/-- The empty initial state: no objects constructed yet. -/
def initState : MVState := ⟨[], [], 0, []⟩

/-- The four lifecycle operations of the class, applied to handle ids:
default construction of a fresh handle, copy construction of a fresh
handle from a live one, copy assignment between live handles, and
destruction. -/
inductive Op where
  | create (h : Nat)
  | copyFrom (h src : Nat)
  | assign (dst src : Nat)
  | destroy (h : Nat)
deriving Repr, DecidableEq

/-- Number of live handles whose pointers refer to block `b`. -/
def countH : List (Nat × HandleSt) → Nat → Nat
  | [], _ => 0
  | (_, hs) :: rest, b => (if hs.blk = b then 1 else 0) + countH rest b

/-- Default constructor, lines 38-45 of the source: allocate the three
cells (`Counter = 1`, `IsValid = true`) and set `IsOriginal = true`. -/
def stepCreate (s : MVState) (h : Nat) : Option MVState :=
  match alookup s.handles h with
  | some _ => none
  | none =>
    some { blocks := (s.nextBlock, ⟨1, true⟩) :: s.blocks,
           handles := (h, ⟨s.nextBlock, true⟩) :: s.handles,
           nextBlock := s.nextBlock + 1,
           freed := s.freed }

/-- Copy constructor, lines 49-61 of the source: under `other.Mtx`'s
lock, copy the three pointers, `++*Counter`, `IsOriginal = false`. -/
def stepCopy (s : MVState) (h src : Nat) : Option MVState :=
  match alookup s.handles h with
  | some _ => none
  | none =>
    match alookup s.handles src with
    | none => none
    | some hs =>
      match alookup s.blocks hs.blk with
      | none => none
      | some B =>
        some { blocks := aupdate s.blocks hs.blk ⟨B.refCount + 1, B.isValid⟩,
               handles := (h, ⟨hs.blk, false⟩) :: s.handles,
               nextBlock := s.nextBlock,
               freed := s.freed }

/-- Copy assignment, lines 65-97 of the source.  After the
`this != &other` self-assignment guard: release the current block
(`--*Counter`; if it reached 0, delete the three cells — note the source
does NOT touch `*IsValid` here), then link to `other`'s cells,
`++*Counter`, `IsOriginal = false`. -/
def stepAssign (s : MVState) (dst src : Nat) : Option MVState :=
  if dst = src then
    match alookup s.handles dst with
    | none => none
    | some _ => some s
  else
    match alookup s.handles dst with
    | none => none
    | some hd =>
      match alookup s.handles src with
      | none => none
      | some hs =>
        match alookup s.blocks hd.blk with
        | none => none
        | some Bold =>
          let blocks₁ :=
            if Bold.refCount - 1 = 0 then aerase s.blocks hd.blk
            else aupdate s.blocks hd.blk ⟨Bold.refCount - 1, Bold.isValid⟩
          let freed₁ :=
            if Bold.refCount - 1 = 0 then hd.blk :: s.freed else s.freed
          match alookup blocks₁ hs.blk with
          | none => none
          | some Bnew =>
            some { blocks := aupdate blocks₁ hs.blk ⟨Bnew.refCount + 1, Bnew.isValid⟩,
                   handles := aupdate s.handles dst ⟨hs.blk, false⟩,
                   nextBlock := s.nextBlock,
                   freed := freed₁ }

/-- Destructor, lines 127-144 of the source: under the block's lock, if
`IsOriginal` then `*IsValid = false`; `--*Counter`; if it reached 0,
delete the three cells. -/
def stepDestroy (s : MVState) (h : Nat) : Option MVState :=
  match alookup s.handles h with
  | none => none
  | some hs =>
    match alookup s.blocks hs.blk with
    | none => none
    | some B =>
      let B' : BlockSt := ⟨B.refCount - 1, if hs.isOriginal then false else B.isValid⟩
      if B'.refCount = 0 then
        some { blocks := aerase s.blocks hs.blk,
               handles := aerase s.handles h,
               nextBlock := s.nextBlock,
               freed := hs.blk :: s.freed }
      else
        some { blocks := aupdate s.blocks hs.blk B',
               handles := aerase s.handles h,
               nextBlock := s.nextBlock,
               freed := s.freed }

/-- One atomic lifecycle operation. -/
def step (s : MVState) : Op → Option MVState
  | Op.create h => stepCreate s h
  | Op.copyFrom h src => stepCopy s h src
  | Op.assign dst src => stepAssign s dst src
  | Op.destroy h => stepDestroy s h

/-- Run a sequence of lifecycle operations. -/
def run (s : MVState) : List Op → Option MVState
  | [] => some s
  | op :: rest =>
    match step s op with
    | none => none
    | some s' => run s' rest

/-- A state is reachable if some sequence of operations produces it from
the empty initial state. -/
def Reaches (s : MVState) : Prop := ∃ ops, run initState ops = some s

/-- Method `GetIsValid`, lines 102-105 of the source: dereference the
shared `IsValid` cell of the handle's block. -/
def getIsValid (s : MVState) (h : Nat) : Option Bool :=
  match alookup s.handles h with
  | none => none
  | some hs => (alookup s.blocks hs.blk).map BlockSt.isValid

/-- A `std::recursive_mutex`, per its documented semantics: either free,
or owned by one thread with a positive recursion depth. -/
structure RecMutex where
  owner : Option Nat
  depth : Nat
deriving Repr, DecidableEq

/-- A freshly constructed, unlocked `std::recursive_mutex`. -/
def RecMutex.init : RecMutex := ⟨none, 0⟩

/-- Semantics of `recursive_mutex::try_lock` for caller thread `t`: on a
free mutex, acquire it; if `t` already owns it, deepen the recursion;
if another thread owns it, return `false` at once with the mutex
untouched.  The function is total: there is no waiting branch. -/
def RecMutex.tryLock (m : RecMutex) (t : Nat) : Bool × RecMutex :=
  match m.owner with
  | none => (true, ⟨some t, 1⟩)
  | some o => if o = t then (true, ⟨some o, m.depth + 1⟩) else (false, m)

/-- Semantics of `recursive_mutex::lock` for caller `t`: acquires when
the mutex is free or already owned by `t`; `none` models the branch in
which the caller blocks waiting for another owner. -/
def RecMutex.lock (m : RecMutex) (t : Nat) : Option RecMutex :=
  match m.owner with
  | none => some ⟨some t, 1⟩
  | some o => if o = t then some ⟨some o, m.depth + 1⟩ else none

/-- Semantics of `recursive_mutex::unlock` for caller `t`: only the owner
may unlock; the last unlock of the recursion frees the mutex. -/
def RecMutex.unlock (m : RecMutex) (t : Nat) : Option RecMutex :=
  match m.owner with
  | none => none
  | some o =>
    if o = t then
      if m.depth = 1 then some ⟨none, 0⟩ else some ⟨some o, m.depth - 1⟩
    else none

/-- Method `TryLock`, lines 115-118 of the source: it forwards directly
to `Mtx->try_lock()`. -/
def tryLockMethod (m : RecMutex) (t : Nat) : Bool × RecMutex :=
  RecMutex.tryLock m t

/-- Method `Lock`, lines 108-111 of the source: forwards to
`Mtx->lock()`. -/
def lockMethod (m : RecMutex) (t : Nat) : Option RecMutex :=
  RecMutex.lock m t

/-- Method `Unlock`, lines 121-124 of the source: forwards to
`Mtx->unlock()`. -/
def unlockMethod (m : RecMutex) (t : Nat) : Option RecMutex :=
  RecMutex.unlock m t

/-- Observable micro-events of one bookkeeping operation, in source
statement order: lock/unlock of the block's mutex, the `*IsValid = false`
store, the `--*Counter` store, and the three `delete` statements. -/
inductive Ev where
  | lockMtx
  | setInvalid
  | decCounter
  | freeMtx
  | freeCounter
  | freeIsValid
  | unlockMtx
deriving Repr, DecidableEq

/-- The destructor body, lines 129-143 of the source, as the list of its
executed statements given the handle's `IsOriginal` and the value of
`*Counter` after the decrement: `Mtx->lock()`; `if (IsOriginal)
*IsValid = false`; `--*Counter`; `if (*Counter == 0) { delete Mtx;
delete Counter; delete IsValid; }`; `Mtx->unlock()`. -/
def destructorEvents (isOrig : Bool) (counterAfter : Nat) : List Ev :=
  [Ev.lockMtx]
    ++ (if isOrig then [Ev.setInvalid] else [])
    ++ [Ev.decCounter]
    ++ (if counterAfter = 0 then [Ev.freeMtx, Ev.freeCounter, Ev.freeIsValid] else [])
    ++ [Ev.unlockMtx]

/-- The release half of the assignment operator, lines 71-81 of the
source, as the list of its executed statements given the value of
`*Counter` after the decrement: `Mtx->lock()`; `--*Counter`;
`if (*Counter == 0) { delete Mtx; delete Counter; delete IsValid; }`;
`Mtx->unlock()`.  Note there is no `setInvalid` event on this path. -/
def assignReleaseEvents (counterAfter : Nat) : List Ev :=
  [Ev.lockMtx, Ev.decCounter]
    ++ (if counterAfter = 0 then [Ev.freeMtx, Ev.freeCounter, Ev.freeIsValid] else [])
    ++ [Ev.unlockMtx]

/-- How `std::cout << b` prints a `bool` with default formatting. -/
def boolOut (b : Bool) : String := if b then "1" else "0"

/-- Result of running the program: the lines written to standard output
(each `<< std::endl` ends one line) and the process exit code. -/
structure MainResult where
  stdoutLines : List String
  exitCode : Nat
deriving Repr, DecidableEq

/-- The demonstration entry point `main`, lines 147-161 of the source,
executed by the single main thread (thread id 0):
`new MutexValidator` into `mwvp` (handle 0, the original), copy
construction of `mwv` (handle 1), then lock / print `GetIsValid` /
unlock on `mwv`, `delete mwvp`, lock / print / unlock on `mwv` again.
`mwv` is destroyed when `main`'s scope exits, and control falling off
the end of `main` returns exit code 0.  The `RecMutex` tracked here is
block 0's mutex as seen by the explicit `Lock`/`Unlock` calls; the
lock/unlock brackets inside the lifecycle operations themselves are the
atomicity of `step` and occur while the demo holds no lock. -/
def mainDemo : Option (MainResult × MVState) := do
  let s1 ← step initState (Op.create 0)
  let s2 ← step s1 (Op.copyFrom 1 0)
  let m0 := RecMutex.init
  let m1 ← lockMethod m0 0
  let out1 ← getIsValid s2 1
  let m2 ← unlockMethod m1 0
  let s3 ← step s2 (Op.destroy 0)
  let m3 ← lockMethod m2 0
  let out2 ← getIsValid s3 1
  let _ ← unlockMethod m3 0
  let s4 ← step s3 (Op.destroy 1)
  pure (⟨[boolOut out1, boolOut out2], 0⟩, s4)

/-! Association-list lemmas used by the invariant proofs. -/

theorem akeys_nil {α : Type} : akeys ([] : List (Nat × α)) = [] := rfl

theorem akeys_cons {α : Type} (p : Nat × α) (l : List (Nat × α)) :
    akeys (p :: l) = p.1 :: akeys l := rfl

theorem alookup_nil {α : Type} (k : Nat) :
    alookup ([] : List (Nat × α)) k = none := rfl

theorem alookup_cons {α : Type} (k' : Nat) (v : α) (l : List (Nat × α)) (k : Nat) :
    alookup ((k', v) :: l) k = if k' = k then some v else alookup l k := rfl

theorem aupdate_cons {α : Type} (k' : Nat) (v' : α) (l : List (Nat × α)) (k : Nat) (v : α) :
    aupdate ((k', v') :: l) k v =
      if k' = k then (k, v) :: l else (k', v') :: aupdate l k v := rfl

theorem aerase_cons {α : Type} (k' : Nat) (v' : α) (l : List (Nat × α)) (k : Nat) :
    aerase ((k', v') :: l) k = if k' = k then l else (k', v') :: aerase l k := rfl

theorem alookup_eq_none {α : Type} {l : List (Nat × α)} {k : Nat} :
    alookup l k = none ↔ k ∉ akeys l := by
  induction l with
  | nil => simp [alookup_nil, akeys_nil]
  | cons p rest ih =>
    obtain ⟨k', v⟩ := p
    rw [alookup_cons, akeys_cons]
    by_cases hk : k' = k
    · subst hk
      simp
    · rw [if_neg hk, ih]
      simp [List.mem_cons, Ne.symm hk]

theorem mem_akeys_of_alookup {α : Type} {l : List (Nat × α)} {k : Nat} {v : α}
    (h : alookup l k = some v) : k ∈ akeys l := by
  by_contra hmem
  rw [← alookup_eq_none] at hmem
  simp [hmem] at h

theorem alookup_of_mem_akeys {α : Type} {l : List (Nat × α)} {k : Nat}
    (h : k ∈ akeys l) : ∃ v, alookup l k = some v := by
  cases hl : alookup l k with
  | none => exact absurd h (alookup_eq_none.mp hl)
  | some v => exact ⟨v, rfl⟩

theorem alookup_of_mem {α : Type} {l : List (Nat × α)}
    (hn : (akeys l).Nodup) {p : Nat × α} (hp : p ∈ l) :
    alookup l p.1 = some p.2 := by
  induction l with
  | nil => simp at hp
  | cons q rest ih =>
    obtain ⟨k', v'⟩ := q
    rw [akeys_cons, List.nodup_cons] at hn
    rcases List.mem_cons.mp hp with hEq | hMem
    · subst hEq
      rw [alookup_cons, if_pos rfl]
    · have hne : k' ≠ p.1 := by
        intro hEq
        have hmem : p.1 ∈ akeys rest := List.mem_map_of_mem Prod.fst hMem
        exact hn.1 (hEq ▸ hmem)
      rw [alookup_cons, if_neg hne]
      exact ih hn.2 hMem

theorem alookup_aupdate_self {α : Type} (l : List (Nat × α)) (k : Nat) (v : α) :
    alookup (aupdate l k v) k = some v := by
  induction l with
  | nil => simp [aupdate, alookup_cons]
  | cons p rest ih =>
    obtain ⟨k', v'⟩ := p
    rw [aupdate_cons]
    by_cases hk : k' = k
    · rw [if_pos hk, alookup_cons, if_pos rfl]
    · rw [if_neg hk, alookup_cons, if_neg hk]
      exact ih

theorem alookup_aupdate_ne {α : Type} (l : List (Nat × α)) {k k' : Nat} (v : α)
    (h : k ≠ k') : alookup (aupdate l k v) k' = alookup l k' := by
  induction l with
  | nil => simp [aupdate, alookup_cons, alookup_nil, h]
  | cons p rest ih =>
    obtain ⟨k₀, v₀⟩ := p
    rw [aupdate_cons]
    by_cases hk : k₀ = k
    · rw [if_pos hk, alookup_cons, alookup_cons, if_neg h, hk, if_neg h]
    · rw [if_neg hk, alookup_cons, alookup_cons]
      by_cases hk' : k₀ = k'
      · rw [if_pos hk', if_pos hk']
      · rw [if_neg hk', if_neg hk']
        exact ih

theorem aerase_sublist {α : Type} (l : List (Nat × α)) (k : Nat) :
    (aerase l k).Sublist l := by
  induction l with
  | nil => simp [aerase]
  | cons p rest ih =>
    obtain ⟨k', v'⟩ := p
    rw [aerase_cons]
    by_cases hk : k' = k
    · rw [if_pos hk]
      exact List.sublist_cons_self (k', v') rest
    · rw [if_neg hk]
      exact List.Sublist.cons₂ (k', v') ih

theorem akeys_aerase_sublist {α : Type} (l : List (Nat × α)) (k : Nat) :
    (akeys (aerase l k)).Sublist (akeys l) :=
  (aerase_sublist l k).map Prod.fst

theorem alookup_aerase_self {α : Type} {l : List (Nat × α)} {k : Nat}
    (hn : (akeys l).Nodup) : alookup (aerase l k) k = none := by
  induction l with
  | nil => simp [aerase, alookup_nil]
  | cons p rest ih =>
    obtain ⟨k', v'⟩ := p
    rw [akeys_cons, List.nodup_cons] at hn
    rw [aerase_cons]
    by_cases hk : k' = k
    · subst hk
      rw [if_pos rfl, alookup_eq_none]
      exact hn.1
    · rw [if_neg hk, alookup_cons, if_neg hk]
      exact ih hn.2

theorem alookup_aerase_ne {α : Type} (l : List (Nat × α)) {k k' : Nat}
    (h : k ≠ k') : alookup (aerase l k) k' = alookup l k' := by
  induction l with
  | nil => simp [aerase]
  | cons p rest ih =>
    obtain ⟨k₀, v₀⟩ := p
    rw [aerase_cons]
    by_cases hk : k₀ = k
    · rw [if_pos hk, alookup_cons, hk, if_neg h]
    · rw [if_neg hk, alookup_cons, alookup_cons]
      by_cases hk' : k₀ = k'
      · rw [if_pos hk', if_pos hk']
      · rw [if_neg hk', if_neg hk']
        exact ih

theorem akeys_aupdate_mem {α : Type} {l : List (Nat × α)} {k : Nat} (v : α)
    (h : k ∈ akeys l) : akeys (aupdate l k v) = akeys l := by
  induction l with
  | nil => simp [akeys_nil] at h
  | cons p rest ih =>
    obtain ⟨k', v'⟩ := p
    rw [aupdate_cons]
    by_cases hk : k' = k
    · rw [if_pos hk, akeys_cons, akeys_cons, hk]
    · have hmem : k ∈ akeys rest := by
        rcases List.mem_cons.mp (by rw [akeys_cons] at h; exact h) with hEq | hMem
        · exact absurd hEq.symm hk
        · exact hMem
      rw [if_neg hk, akeys_cons, akeys_cons, ih hmem]

theorem mem_akeys_aerase {α : Type} {l : List (Nat × α)} {k k' : Nat}
    (hn : (akeys l).Nodup) :
    k' ∈ akeys (aerase l k) ↔ k' ∈ akeys l ∧ k' ≠ k := by
  induction l with
  | nil => simp [aerase, akeys_nil]
  | cons p rest ih =>
    obtain ⟨k₀, v₀⟩ := p
    rw [akeys_cons, List.nodup_cons] at hn
    rw [aerase_cons]
    by_cases hk : k₀ = k
    · subst hk
      rw [if_pos rfl, akeys_cons]
      constructor
      · intro hmem
        refine ⟨List.mem_cons_of_mem _ hmem, ?_⟩
        intro hEq
        exact hn.1 (hEq ▸ hmem)
      · rintro ⟨hmem, hne⟩
        rcases List.mem_cons.mp hmem with hEq | hMem
        · exact absurd hEq hne
        · exact hMem
    · rw [if_neg hk, akeys_cons, akeys_cons]
      by_cases hk' : k₀ = k'
      · subst hk'
        simp [hk]
      · simp only [List.mem_cons]
        rw [ih hn.2]
        constructor
        · rintro (hEq | ⟨hMem, hne⟩)
          · exact absurd hEq.symm hk'
          · exact ⟨Or.inr hMem, hne⟩
        · rintro ⟨hEq | hMem, hne⟩
          · exact absurd hEq.symm hk'
          · exact Or.inr ⟨hMem, hne⟩

/-! Counting lemmas: how the number of handles pointing at a block reacts
to the list operations. -/

theorem countH_nil (b : Nat) : countH [] b = 0 := rfl

theorem countH_cons (k : Nat) (hs : HandleSt) (l : List (Nat × HandleSt)) (b : Nat) :
    countH ((k, hs) :: l) b = (if hs.blk = b then 1 else 0) + countH l b := rfl

theorem countH_eq_zero {l : List (Nat × HandleSt)} {b : Nat}
    (h : ∀ p ∈ l, (p : Nat × HandleSt).2.blk ≠ b) : countH l b = 0 := by
  induction l with
  | nil => rfl
  | cons p rest ih =>
    obtain ⟨k, hs⟩ := p
    rw [countH_cons, if_neg (h (k, hs) (List.mem_cons_self _ _)), Nat.zero_add]
    exact ih fun q hq => h q (List.mem_cons_of_mem _ hq)

theorem countH_pos {l : List (Nat × HandleSt)} {h : Nat} {hs : HandleSt}
    (hl : alookup l h = some hs) : 1 ≤ countH l hs.blk := by
  induction l with
  | nil => simp [alookup_nil] at hl
  | cons p rest ih =>
    obtain ⟨k, v⟩ := p
    rw [alookup_cons] at hl
    by_cases hk : k = h
    · rw [if_pos hk] at hl
      cases hl
      rw [countH_cons, if_pos rfl]
      exact Nat.le_add_right 1 _
    · rw [if_neg hk] at hl
      rw [countH_cons]
      have := ih hl
      omega

theorem countH_aupdate (l : List (Nat × HandleSt)) {h : Nat} {hs : HandleSt}
    (v : HandleSt) (hn : (akeys l).Nodup) (hl : alookup l h = some hs) (b : Nat) :
    countH (aupdate l h v) b + (if hs.blk = b then 1 else 0)
      = countH l b + (if v.blk = b then 1 else 0) := by
  induction l with
  | nil => simp [alookup_nil] at hl
  | cons p rest ih =>
    obtain ⟨k, w⟩ := p
    rw [akeys_cons, List.nodup_cons] at hn
    rw [alookup_cons] at hl
    rw [aupdate_cons]
    by_cases hk : k = h
    · rw [if_pos hk] at hl ⊢
      cases hl
      rw [countH_cons, countH_cons]
      omega
    · rw [if_neg hk] at hl ⊢
      rw [countH_cons, countH_cons]
      have := ih hn.2 hl
      omega

theorem countH_aerase (l : List (Nat × HandleSt)) {h : Nat} {hs : HandleSt}
    (hn : (akeys l).Nodup) (hl : alookup l h = some hs) (b : Nat) :
    countH (aerase l h) b + (if hs.blk = b then 1 else 0) = countH l b := by
  induction l with
  | nil => simp [alookup_nil] at hl
  | cons p rest ih =>
    obtain ⟨k, w⟩ := p
    rw [akeys_cons, List.nodup_cons] at hn
    rw [alookup_cons] at hl
    rw [aerase_cons]
    by_cases hk : k = h
    · rw [if_pos hk] at hl ⊢
      cases hl
      rw [countH_cons]
      omega
    · rw [if_neg hk] at hl ⊢
      rw [countH_cons, countH_cons]
      have := ih hn.2 hl
      omega

theorem countH_two {l : List (Nat × HandleSt)} {h₁ h₂ : Nat} {hs₁ hs₂ : HandleSt}
    (hn : (akeys l).Nodup) (hne : h₁ ≠ h₂)
    (hl₁ : alookup l h₁ = some hs₁) (hl₂ : alookup l h₂ = some hs₂)
    (hb : hs₂.blk = hs₁.blk) : 2 ≤ countH l hs₁.blk := by
  have herase : alookup (aerase l h₁) h₂ = some hs₂ := by
    rw [alookup_aerase_ne l hne]
    exact hl₂
  have hpos : 1 ≤ countH (aerase l h₁) hs₂.blk := countH_pos herase
  have hsum := countH_aerase l hn hl₁ hs₁.blk
  rw [if_pos rfl] at hsum
  rw [hb] at hpos
  omega

/-- The global well-formedness invariant of the bookkeeping.  Its heart
is `refCountEq`: every live block's `*Counter` equals the number of live
handles whose pointers refer to it (the spec's central invariant), plus
the facts needed to push it through every operation: distinct keys, a
freed block is never live again and is freed at most once, every handle
points at a live block, each block has at most one `IsOriginal` handle,
and a block still pointed at by an `IsOriginal` handle has
`*IsValid = true`. -/
structure Inv (s : MVState) : Prop where
  blocksNodup : (akeys s.blocks).Nodup
  handlesNodup : (akeys s.handles).Nodup
  blocksLt : ∀ b ∈ akeys s.blocks, b < s.nextBlock
  freedLt : ∀ b ∈ s.freed, b < s.nextBlock
  freedNodup : s.freed.Nodup
  liveNotFreed : ∀ b ∈ akeys s.blocks, b ∉ s.freed
  allocated : ∀ b, b < s.nextBlock → b ∈ akeys s.blocks ∨ b ∈ s.freed
  refCountEq : ∀ b B, alookup s.blocks b = some B → B.refCount = countH s.handles b
  livePos : ∀ b B, alookup s.blocks b = some B → 1 ≤ B.refCount
  handleLive : ∀ h hs, alookup s.handles h = some hs →
    ∃ B, alookup s.blocks hs.blk = some B
  origUnique : ∀ h₁ hs₁ h₂ hs₂, alookup s.handles h₁ = some hs₁ →
    alookup s.handles h₂ = some hs₂ → hs₁.isOriginal = true →
    hs₂.isOriginal = true → hs₁.blk = hs₂.blk → h₁ = h₂
  origValid : ∀ h hs B, alookup s.handles h = some hs → hs.isOriginal = true →
    alookup s.blocks hs.blk = some B → B.isValid = true

theorem inv_init : Inv initState := by
  constructor <;> intros <;> simp_all [initState, akeys_nil, alookup_nil]

/-! Computation lemmas: each operation's result state, given the lookups
its source code performs. -/

theorem stepCreate_eq {s : MVState} {h : Nat}
    (hfresh : alookup s.handles h = none) :
    stepCreate s h =
      some ⟨(s.nextBlock, ⟨1, true⟩) :: s.blocks,
            (h, ⟨s.nextBlock, true⟩) :: s.handles,
            s.nextBlock + 1, s.freed⟩ := by
  simp [stepCreate, hfresh]

theorem stepCopy_eq {s : MVState} {h src : Nat} {hs : HandleSt} {B : BlockSt}
    (hfresh : alookup s.handles h = none)
    (hsrc : alookup s.handles src = some hs)
    (hB : alookup s.blocks hs.blk = some B) :
    stepCopy s h src =
      some ⟨aupdate s.blocks hs.blk ⟨B.refCount + 1, B.isValid⟩,
            (h, ⟨hs.blk, false⟩) :: s.handles,
            s.nextBlock, s.freed⟩ := by
  simp [stepCopy, hfresh, hsrc, hB]

theorem stepDestroy_eq_free {s : MVState} {h : Nat} {hs : HandleSt} {B : BlockSt}
    (hh : alookup s.handles h = some hs)
    (hB : alookup s.blocks hs.blk = some B)
    (h0 : B.refCount - 1 = 0) :
    stepDestroy s h =
      some ⟨aerase s.blocks hs.blk, aerase s.handles h,
            s.nextBlock, hs.blk :: s.freed⟩ := by
  simp [stepDestroy, hh, hB, h0]

theorem stepDestroy_eq_live {s : MVState} {h : Nat} {hs : HandleSt} {B : BlockSt}
    (hh : alookup s.handles h = some hs)
    (hB : alookup s.blocks hs.blk = some B)
    (h0 : B.refCount - 1 ≠ 0) :
    stepDestroy s h =
      some ⟨aupdate s.blocks hs.blk
              ⟨B.refCount - 1, if hs.isOriginal then false else B.isValid⟩,
            aerase s.handles h, s.nextBlock, s.freed⟩ := by
  simp [stepDestroy, hh, hB, h0]

theorem stepAssign_self {s : MVState} {h : Nat} {hs : HandleSt}
    (hh : alookup s.handles h = some hs) :
    stepAssign s h h = some s := by
  simp [stepAssign, hh]

theorem stepAssign_eq_free {s : MVState} {dst src : Nat} {hd hs : HandleSt}
    {Bold Bnew : BlockSt}
    (hne : dst ≠ src)
    (hdst : alookup s.handles dst = some hd)
    (hsrc : alookup s.handles src = some hs)
    (hBold : alookup s.blocks hd.blk = some Bold)
    (h0 : Bold.refCount - 1 = 0)
    (hBnew : alookup (aerase s.blocks hd.blk) hs.blk = some Bnew) :
    stepAssign s dst src =
      some ⟨aupdate (aerase s.blocks hd.blk) hs.blk
              ⟨Bnew.refCount + 1, Bnew.isValid⟩,
            aupdate s.handles dst ⟨hs.blk, false⟩,
            s.nextBlock, hd.blk :: s.freed⟩ := by
  simp [stepAssign, hne, hdst, hsrc, hBold, h0, hBnew]

theorem stepAssign_eq_live {s : MVState} {dst src : Nat} {hd hs : HandleSt}
    {Bold Bnew : BlockSt}
    (hne : dst ≠ src)
    (hdst : alookup s.handles dst = some hd)
    (hsrc : alookup s.handles src = some hs)
    (hBold : alookup s.blocks hd.blk = some Bold)
    (h0 : Bold.refCount - 1 ≠ 0)
    (hBnew : alookup (aupdate s.blocks hd.blk ⟨Bold.refCount - 1, Bold.isValid⟩)
        hs.blk = some Bnew) :
    stepAssign s dst src =
      some ⟨aupdate (aupdate s.blocks hd.blk ⟨Bold.refCount - 1, Bold.isValid⟩)
              hs.blk ⟨Bnew.refCount + 1, Bnew.isValid⟩,
            aupdate s.handles dst ⟨hs.blk, false⟩,
            s.nextBlock, s.freed⟩ := by
  simp [stepAssign, hne, hdst, hsrc, hBold, h0, hBnew]

/-! Preservation of the invariant by each operation. -/

theorem stepCreate_inv {s s' : MVState} {h : Nat}
    (hinv : Inv s) (hstep : stepCreate s h = some s') : Inv s' := by
  cases hfresh : alookup s.handles h with
  | some hs => simp [stepCreate, hfresh] at hstep
  | none =>
    rw [stepCreate_eq hfresh] at hstep
    cases hstep
    have hnotmemB : s.nextBlock ∉ akeys s.blocks := fun hmem =>
      Nat.lt_irrefl _ (hinv.blocksLt _ hmem)
    have hnotmemH : h ∉ akeys s.handles := alookup_eq_none.mp hfresh
    have hcount0 : countH s.handles s.nextBlock = 0 := by
      apply countH_eq_zero
      intro p hp
      have hl := alookup_of_mem hinv.handlesNodup hp
      obtain ⟨B, hB⟩ := hinv.handleLive _ _ hl
      have := hinv.blocksLt _ (mem_akeys_of_alookup hB)
      omega
    constructor
    case blocksNodup =>
      rw [akeys_cons]
      exact List.nodup_cons.mpr ⟨hnotmemB, hinv.blocksNodup⟩
    case handlesNodup =>
      rw [akeys_cons]
      exact List.nodup_cons.mpr ⟨hnotmemH, hinv.handlesNodup⟩
    case blocksLt =>
      intro b hmem
      show b < s.nextBlock + 1
      rw [akeys_cons] at hmem
      rcases List.mem_cons.mp hmem with hEq | hMem
      · simp only [hEq]; omega
      · have := hinv.blocksLt _ hMem; omega
    case freedLt =>
      intro b hmem
      show b < s.nextBlock + 1
      have := hinv.freedLt _ hmem; omega
    case freedNodup => exact hinv.freedNodup
    case liveNotFreed =>
      intro b hmem
      rw [akeys_cons] at hmem
      rcases List.mem_cons.mp hmem with hEq | hMem
      · simp only [hEq]
        intro hfr
        exact Nat.lt_irrefl _ (hinv.freedLt _ hfr)
      · exact hinv.liveNotFreed _ hMem
    case allocated =>
      intro b hb₀
      have hb : b < s.nextBlock + 1 := hb₀
      by_cases hEq : b = s.nextBlock
      · left
        rw [akeys_cons, hEq]
        exact List.mem_cons_self _ _
      · have hlt : b < s.nextBlock := by omega
        rcases hinv.allocated b hlt with hLive | hFr
        · left
          rw [akeys_cons]
          exact List.mem_cons_of_mem _ hLive
        · right; exact hFr
    case refCountEq =>
      intro b B hB
      rw [alookup_cons] at hB
      by_cases hb : s.nextBlock = b
      · rw [if_pos hb] at hB
        cases hB
        rw [countH_cons]
        simp only
        rw [if_pos hb, ← hb, hcount0]
      · rw [if_neg hb] at hB
        rw [countH_cons]
        simp only
        rw [if_neg hb, Nat.zero_add]
        exact hinv.refCountEq _ _ hB
    case livePos =>
      intro b B hB
      rw [alookup_cons] at hB
      by_cases hb : s.nextBlock = b
      · rw [if_pos hb] at hB
        cases hB
        exact Nat.le_refl 1
      · rw [if_neg hb] at hB
        exact hinv.livePos _ _ hB
    case handleLive =>
      intro h₂ hs₂ hl
      rw [alookup_cons] at hl
      by_cases hh : h = h₂
      · rw [if_pos hh] at hl
        cases hl
        refine ⟨⟨1, true⟩, ?_⟩
        rw [alookup_cons]
        simp
      · rw [if_neg hh] at hl
        obtain ⟨B, hB⟩ := hinv.handleLive _ _ hl
        refine ⟨B, ?_⟩
        rw [alookup_cons]
        have hne : s.nextBlock ≠ hs₂.blk := by
          have := hinv.blocksLt _ (mem_akeys_of_alookup hB)
          omega
        rw [if_neg hne]
        exact hB
    case origUnique =>
      intro h₁ hs₁ h₂ hs₂ hl₁ hl₂ ho₁ ho₂ hblk
      rw [alookup_cons] at hl₁ hl₂
      by_cases hh₁ : h = h₁ <;> by_cases hh₂ : h = h₂
      · omega
      · rw [if_pos hh₁] at hl₁
        rw [if_neg hh₂] at hl₂
        cases hl₁
        obtain ⟨B, hB⟩ := hinv.handleLive _ _ hl₂
        have := hinv.blocksLt _ (mem_akeys_of_alookup hB)
        simp only at hblk
        omega
      · rw [if_neg hh₁] at hl₁
        rw [if_pos hh₂] at hl₂
        cases hl₂
        obtain ⟨B, hB⟩ := hinv.handleLive _ _ hl₁
        have := hinv.blocksLt _ (mem_akeys_of_alookup hB)
        simp only at hblk
        omega
      · rw [if_neg hh₁] at hl₁
        rw [if_neg hh₂] at hl₂
        exact hinv.origUnique _ _ _ _ hl₁ hl₂ ho₁ ho₂ hblk
    case origValid =>
      intro h₂ hs₂ B hl ho hB
      rw [alookup_cons] at hl
      by_cases hh : h = h₂
      · rw [if_pos hh] at hl
        cases hl
        rw [alookup_cons] at hB
        dsimp only at hB
        rw [if_pos rfl] at hB
        cases hB
        rfl
      · rw [if_neg hh] at hl
        obtain ⟨B₀, hB₀⟩ := hinv.handleLive _ _ hl
        have hne : s.nextBlock ≠ hs₂.blk := by
          have := hinv.blocksLt _ (mem_akeys_of_alookup hB₀)
          omega
        rw [alookup_cons, if_neg hne] at hB
        exact hinv.origValid _ _ _ hl ho hB

theorem stepCopy_inv {s s' : MVState} {h src : Nat}
    (hinv : Inv s) (hstep : stepCopy s h src = some s') : Inv s' := by
  cases hfresh : alookup s.handles h with
  | some _ => simp [stepCopy, hfresh] at hstep
  | none =>
  cases hsrc : alookup s.handles src with
  | none => simp [stepCopy, hfresh, hsrc] at hstep
  | some hs =>
  cases hB : alookup s.blocks hs.blk with
  | none => simp [stepCopy, hfresh, hsrc, hB] at hstep
  | some B =>
  rw [stepCopy_eq hfresh hsrc hB] at hstep
  cases hstep
  have hmemB : hs.blk ∈ akeys s.blocks := mem_akeys_of_alookup hB
  have hkeys : akeys (aupdate s.blocks hs.blk ⟨B.refCount + 1, B.isValid⟩)
      = akeys s.blocks := akeys_aupdate_mem _ hmemB
  have hnotmemH : h ∉ akeys s.handles := alookup_eq_none.mp hfresh
  constructor
  case blocksNodup =>
    rw [hkeys]; exact hinv.blocksNodup
  case handlesNodup =>
    rw [akeys_cons]
    exact List.nodup_cons.mpr ⟨hnotmemH, hinv.handlesNodup⟩
  case blocksLt =>
    intro b hmem
    rw [hkeys] at hmem
    exact hinv.blocksLt _ hmem
  case freedLt => exact hinv.freedLt
  case freedNodup => exact hinv.freedNodup
  case liveNotFreed =>
    intro b hmem
    rw [hkeys] at hmem
    exact hinv.liveNotFreed _ hmem
  case allocated =>
    intro b hb
    rcases hinv.allocated b hb with hL | hF
    · left; rw [hkeys]; exact hL
    · right; exact hF
  case refCountEq =>
    intro b B' hB'
    by_cases hb : hs.blk = b
    · subst hb
      rw [alookup_aupdate_self] at hB'
      cases hB'
      rw [countH_cons]
      dsimp only
      rw [if_pos rfl, hinv.refCountEq _ _ hB]
      omega
    · rw [alookup_aupdate_ne _ _ hb] at hB'
      rw [countH_cons]
      dsimp only
      rw [if_neg hb, Nat.zero_add]
      exact hinv.refCountEq _ _ hB'
  case livePos =>
    intro b B' hB'
    by_cases hb : hs.blk = b
    · subst hb
      rw [alookup_aupdate_self] at hB'
      cases hB'
      dsimp only
      omega
    · rw [alookup_aupdate_ne _ _ hb] at hB'
      exact hinv.livePos _ _ hB'
  case handleLive =>
    intro h₂ hs₂ hl
    rw [alookup_cons] at hl
    by_cases hh : h = h₂
    · rw [if_pos hh] at hl
      cases hl
      exact ⟨_, alookup_aupdate_self s.blocks hs.blk _⟩
    · rw [if_neg hh] at hl
      obtain ⟨B₂, hB₂⟩ := hinv.handleLive _ _ hl
      by_cases hb : hs.blk = hs₂.blk
      · refine ⟨⟨B.refCount + 1, B.isValid⟩, ?_⟩
        rw [← hb]
        exact alookup_aupdate_self s.blocks hs.blk _
      · refine ⟨B₂, ?_⟩
        rw [alookup_aupdate_ne _ _ hb]
        exact hB₂
  case origUnique =>
    intro h₁ hs₁ h₂ hs₂ hl₁ hl₂ ho₁ ho₂ hblk
    rw [alookup_cons] at hl₁ hl₂
    by_cases hh₁ : h = h₁
    · rw [if_pos hh₁] at hl₁
      cases hl₁
      simp at ho₁
    · by_cases hh₂ : h = h₂
      · rw [if_pos hh₂] at hl₂
        cases hl₂
        simp at ho₂
      · rw [if_neg hh₁] at hl₁
        rw [if_neg hh₂] at hl₂
        exact hinv.origUnique _ _ _ _ hl₁ hl₂ ho₁ ho₂ hblk
  case origValid =>
    intro h₂ hs₂ B' hl ho hB'
    rw [alookup_cons] at hl
    by_cases hh : h = h₂
    · rw [if_pos hh] at hl
      cases hl
      simp at ho
    · rw [if_neg hh] at hl
      by_cases hb : hs.blk = hs₂.blk
      · have hBb : alookup s.blocks hs₂.blk = some B := by
          rw [← hb]; exact hB
        rw [← hb, alookup_aupdate_self] at hB'
        cases hB'
        show B.isValid = true
        exact hinv.origValid _ _ _ hl ho hBb
      · rw [alookup_aupdate_ne _ _ hb] at hB'
        exact hinv.origValid _ _ _ hl ho hB'

theorem stepDestroy_inv {s s' : MVState} {h : Nat}
    (hinv : Inv s) (hstep : stepDestroy s h = some s') : Inv s' := by
  cases hh : alookup s.handles h with
  | none => simp [stepDestroy, hh] at hstep
  | some hs =>
  cases hB : alookup s.blocks hs.blk with
  | none => simp [stepDestroy, hh, hB] at hstep
  | some B =>
  have hBmem : hs.blk ∈ akeys s.blocks := mem_akeys_of_alookup hB
  have hrcpos : 1 ≤ B.refCount := hinv.livePos _ _ hB
  have hrceq : B.refCount = countH s.handles hs.blk := hinv.refCountEq _ _ hB
  by_cases h0 : B.refCount - 1 = 0
  · -- the decrement reaches zero: the block is freed
    rw [stepDestroy_eq_free hh hB h0] at hstep
    cases hstep
    have hrc1 : B.refCount = 1 := by omega
    have hother : ∀ h₂ hs₂, h₂ ≠ h → alookup s.handles h₂ = some hs₂ →
        hs₂.blk ≠ hs.blk := by
      intro h₂ hs₂ hne hl₂ hblk
      have h2c : 2 ≤ countH s.handles hs.blk :=
        countH_two hinv.handlesNodup (Ne.symm hne) hh hl₂ hblk
      omega
    refine ⟨?_, ?_, ?_, ?_, ?_, ?_, ?_, ?_, ?_, ?_, ?_, ?_⟩
    case _ =>
      exact (akeys_aerase_sublist _ _).nodup hinv.blocksNodup
    case _ =>
      exact (akeys_aerase_sublist _ _).nodup hinv.handlesNodup
    case _ =>
      intro b hmem
      exact hinv.blocksLt _ ((akeys_aerase_sublist _ _).subset hmem)
    case _ =>
      intro b hmem
      rcases List.mem_cons.mp hmem with hEq | hMem
      · rw [hEq]; exact hinv.blocksLt _ hBmem
      · exact hinv.freedLt _ hMem
    case _ =>
      exact List.nodup_cons.mpr ⟨hinv.liveNotFreed _ hBmem, hinv.freedNodup⟩
    case _ =>
      intro b hmem
      obtain ⟨hmem', hne⟩ := (mem_akeys_aerase hinv.blocksNodup).mp hmem
      intro hfr
      rcases List.mem_cons.mp hfr with hEq | hMem
      · exact hne hEq
      · exact hinv.liveNotFreed _ hmem' hMem
    case _ =>
      intro b hb
      rcases hinv.allocated b hb with hL | hF
      · by_cases hEq : b = hs.blk
        · right; rw [hEq]; exact List.mem_cons_self _ _
        · left; exact (mem_akeys_aerase hinv.blocksNodup).mpr ⟨hL, hEq⟩
      · right; exact List.mem_cons_of_mem _ hF
    case _ =>
      intro b B' hB'
      by_cases hEq : hs.blk = b
      · rw [← hEq, alookup_aerase_self hinv.blocksNodup] at hB'
        cases hB'
      · rw [alookup_aerase_ne _ hEq] at hB'
        have hcnt := countH_aerase s.handles hinv.handlesNodup hh b
        rw [if_neg hEq] at hcnt
        rw [hinv.refCountEq _ _ hB']
        dsimp only
        omega
    case _ =>
      intro b B' hB'
      by_cases hEq : hs.blk = b
      · rw [← hEq, alookup_aerase_self hinv.blocksNodup] at hB'
        cases hB'
      · rw [alookup_aerase_ne _ hEq] at hB'
        exact hinv.livePos _ _ hB'
    case _ =>
      intro h₂ hs₂ hl
      by_cases hEq : h = h₂
      · rw [← hEq, alookup_aerase_self hinv.handlesNodup] at hl
        cases hl
      · rw [alookup_aerase_ne _ hEq] at hl
        obtain ⟨B₂, hB₂⟩ := hinv.handleLive _ _ hl
        have hne : hs.blk ≠ hs₂.blk :=
          Ne.symm (hother _ _ (fun hEq₂ => hEq hEq₂.symm) hl)
        refine ⟨B₂, ?_⟩
        rw [alookup_aerase_ne _ hne]
        exact hB₂
    case _ =>
      intro h₁ hs₁ h₂ hs₂ hl₁ hl₂ ho₁ ho₂ hblk
      by_cases hEq₁ : h = h₁
      · rw [← hEq₁, alookup_aerase_self hinv.handlesNodup] at hl₁
        cases hl₁
      · by_cases hEq₂ : h = h₂
        · rw [← hEq₂, alookup_aerase_self hinv.handlesNodup] at hl₂
          cases hl₂
        · rw [alookup_aerase_ne _ hEq₁] at hl₁
          rw [alookup_aerase_ne _ hEq₂] at hl₂
          exact hinv.origUnique _ _ _ _ hl₁ hl₂ ho₁ ho₂ hblk
    case _ =>
      intro h₂ hs₂ B' hl ho hB'
      by_cases hEq : h = h₂
      · rw [← hEq, alookup_aerase_self hinv.handlesNodup] at hl
        cases hl
      · rw [alookup_aerase_ne _ hEq] at hl
        by_cases hEqb : hs.blk = hs₂.blk
        · rw [← hEqb, alookup_aerase_self hinv.blocksNodup] at hB'
          cases hB'
        · rw [alookup_aerase_ne _ hEqb] at hB'
          exact hinv.origValid _ _ _ hl ho hB'
  · -- the decrement leaves a positive count: the block survives
    rw [stepDestroy_eq_live hh hB h0] at hstep
    cases hstep
    have hkeys : akeys (aupdate s.blocks hs.blk
        ⟨B.refCount - 1, if hs.isOriginal then false else B.isValid⟩)
        = akeys s.blocks := akeys_aupdate_mem _ hBmem
    refine ⟨?_, ?_, ?_, ?_, ?_, ?_, ?_, ?_, ?_, ?_, ?_, ?_⟩
    case _ => rw [hkeys]; exact hinv.blocksNodup
    case _ =>
      exact (akeys_aerase_sublist _ _).nodup hinv.handlesNodup
    case _ =>
      intro b hmem
      rw [hkeys] at hmem
      exact hinv.blocksLt _ hmem
    case _ => exact hinv.freedLt
    case _ => exact hinv.freedNodup
    case _ =>
      intro b hmem
      rw [hkeys] at hmem
      exact hinv.liveNotFreed _ hmem
    case _ =>
      intro b hb
      rcases hinv.allocated b hb with hL | hF
      · left; rw [hkeys]; exact hL
      · right; exact hF
    case _ =>
      intro b B' hB'
      have hcnt := countH_aerase s.handles hinv.handlesNodup hh b
      by_cases hEq : hs.blk = b
      · subst hEq
        rw [alookup_aupdate_self] at hB'
        cases hB'
        rw [if_pos rfl] at hcnt
        dsimp only
        omega
      · rw [alookup_aupdate_ne _ _ hEq] at hB'
        rw [if_neg hEq] at hcnt
        rw [hinv.refCountEq _ _ hB']
        dsimp only
        omega
    case _ =>
      intro b B' hB'
      by_cases hEq : hs.blk = b
      · rw [← hEq, alookup_aupdate_self] at hB'
        cases hB'
        show 1 ≤ B.refCount - 1
        omega
      · rw [alookup_aupdate_ne _ _ hEq] at hB'
        exact hinv.livePos _ _ hB'
    case _ =>
      intro h₂ hs₂ hl
      by_cases hEq : h = h₂
      · rw [← hEq, alookup_aerase_self hinv.handlesNodup] at hl
        cases hl
      · rw [alookup_aerase_ne _ hEq] at hl
        obtain ⟨B₂, hB₂⟩ := hinv.handleLive _ _ hl
        by_cases hEqb : hs.blk = hs₂.blk
        · refine ⟨⟨B.refCount - 1, if hs.isOriginal then false else B.isValid⟩, ?_⟩
          rw [← hEqb]
          exact alookup_aupdate_self s.blocks hs.blk _
        · refine ⟨B₂, ?_⟩
          rw [alookup_aupdate_ne _ _ hEqb]
          exact hB₂
    case _ =>
      intro h₁ hs₁ h₂ hs₂ hl₁ hl₂ ho₁ ho₂ hblk
      by_cases hEq₁ : h = h₁
      · rw [← hEq₁, alookup_aerase_self hinv.handlesNodup] at hl₁
        cases hl₁
      · by_cases hEq₂ : h = h₂
        · rw [← hEq₂, alookup_aerase_self hinv.handlesNodup] at hl₂
          cases hl₂
        · rw [alookup_aerase_ne _ hEq₁] at hl₁
          rw [alookup_aerase_ne _ hEq₂] at hl₂
          exact hinv.origUnique _ _ _ _ hl₁ hl₂ ho₁ ho₂ hblk
    case _ =>
      intro h₂ hs₂ B' hl ho hB'
      by_cases hEq : h = h₂
      · rw [← hEq, alookup_aerase_self hinv.handlesNodup] at hl
        cases hl
      · rw [alookup_aerase_ne _ hEq] at hl
        by_cases hEqb : hs.blk = hs₂.blk
        · have horig : hs.isOriginal = false := by
            cases horg : hs.isOriginal with
            | false => rfl
            | true =>
              have := hinv.origUnique _ _ _ _ hh hl horg ho hEqb
              exact absurd this hEq
          have hBb : alookup s.blocks hs₂.blk = some B := by
            rw [← hEqb]; exact hB
          rw [← hEqb, alookup_aupdate_self] at hB'
          cases hB'
          show (if hs.isOriginal then false else B.isValid) = true
          rw [horig]
          show B.isValid = true
          exact hinv.origValid _ _ _ hl ho hBb
        · rw [alookup_aupdate_ne _ _ hEqb] at hB'
          exact hinv.origValid _ _ _ hl ho hB'

theorem stepAssign_inv {s s' : MVState} {dst src : Nat}
    (hinv : Inv s) (hstep : stepAssign s dst src = some s') : Inv s' := by
  by_cases hsame : dst = src
  · subst hsame
    cases hd : alookup s.handles dst with
    | none => simp [stepAssign, hd] at hstep
    | some _ =>
      rw [stepAssign_self hd] at hstep
      cases hstep
      exact hinv
  · cases hdst : alookup s.handles dst with
    | none => simp [stepAssign, hsame, hdst] at hstep
    | some hd =>
    cases hsrc : alookup s.handles src with
    | none => simp [stepAssign, hsame, hdst, hsrc] at hstep
    | some hs =>
    cases hBold : alookup s.blocks hd.blk with
    | none => simp [stepAssign, hsame, hdst, hsrc, hBold] at hstep
    | some Bold =>
    have hdmem : hd.blk ∈ akeys s.blocks := mem_akeys_of_alookup hBold
    have hrcpos : 1 ≤ Bold.refCount := hinv.livePos _ _ hBold
    have hrceq : Bold.refCount = countH s.handles hd.blk := hinv.refCountEq _ _ hBold
    have hdstmem : dst ∈ akeys s.handles := mem_akeys_of_alookup hdst
    have hcnt := countH_aupdate s.handles (⟨hs.blk, false⟩ : HandleSt)
      hinv.handlesNodup hdst
    dsimp only at hcnt
    have hkeysH : akeys (aupdate s.handles dst (⟨hs.blk, false⟩ : HandleSt))
        = akeys s.handles := akeys_aupdate_mem _ hdstmem
    by_cases h0 : Bold.refCount - 1 = 0
    · -- release frees the old block
      cases hBnew : alookup (aerase s.blocks hd.blk) hs.blk with
      | none => simp [stepAssign, hsame, hdst, hsrc, hBold, h0, hBnew] at hstep
      | some Bnew =>
      rw [stepAssign_eq_free hsame hdst hsrc hBold h0 hBnew] at hstep
      cases hstep
      have hrc1 : Bold.refCount = 1 := by omega
      have hbsne : hs.blk ≠ hd.blk := by
        intro hEq
        rw [hEq, alookup_aerase_self hinv.blocksNodup] at hBnew
        cases hBnew
      have hBnewOld : alookup s.blocks hs.blk = some Bnew := by
        rw [← alookup_aerase_ne s.blocks (Ne.symm hbsne)]
        exact hBnew
      have hother : ∀ h₂ hs₂, h₂ ≠ dst → alookup s.handles h₂ = some hs₂ →
          hs₂.blk ≠ hd.blk := by
        intro h₂ hs₂ hne hl₂ hblk
        have h2c : 2 ≤ countH s.handles hd.blk :=
          countH_two hinv.handlesNodup (Ne.symm hne) hdst hl₂ hblk
        omega
      have hnewmem : hs.blk ∈ akeys (aerase s.blocks hd.blk) :=
        mem_akeys_of_alookup hBnew
      have hkeysB : akeys (aupdate (aerase s.blocks hd.blk) hs.blk
          (⟨Bnew.refCount + 1, Bnew.isValid⟩ : BlockSt))
          = akeys (aerase s.blocks hd.blk) := akeys_aupdate_mem _ hnewmem
      refine ⟨?_, ?_, ?_, ?_, ?_, ?_, ?_, ?_, ?_, ?_, ?_, ?_⟩
      · rw [hkeysB]
        exact (akeys_aerase_sublist _ _).nodup hinv.blocksNodup
      · rw [hkeysH]; exact hinv.handlesNodup
      · intro b hmem
        rw [hkeysB] at hmem
        exact hinv.blocksLt _ ((akeys_aerase_sublist _ _).subset hmem)
      · intro b hmem
        rcases List.mem_cons.mp hmem with hEq | hMem
        · rw [hEq]; exact hinv.blocksLt _ hdmem
        · exact hinv.freedLt _ hMem
      · exact List.nodup_cons.mpr ⟨hinv.liveNotFreed _ hdmem, hinv.freedNodup⟩
      · intro b hmem
        rw [hkeysB] at hmem
        obtain ⟨hmem', hne⟩ := (mem_akeys_aerase hinv.blocksNodup).mp hmem
        intro hfr
        rcases List.mem_cons.mp hfr with hEq | hMem
        · exact hne hEq
        · exact hinv.liveNotFreed _ hmem' hMem
      · intro b hb
        rcases hinv.allocated b hb with hL | hF
        · by_cases hEq : b = hd.blk
          · right; rw [hEq]; exact List.mem_cons_self _ _
          · left
            rw [hkeysB]
            exact (mem_akeys_aerase hinv.blocksNodup).mpr ⟨hL, hEq⟩
        · right; exact List.mem_cons_of_mem _ hF
      · intro b B' hB'
        by_cases hbs : hs.blk = b
        · subst hbs
          rw [alookup_aupdate_self] at hB'
          cases hB'
          have h1 := hcnt hs.blk
          rw [if_neg (fun hEq => hbsne hEq.symm), if_pos rfl] at h1
          have h2 : Bnew.refCount = countH s.handles hs.blk :=
            hinv.refCountEq _ _ hBnewOld
          dsimp only
          omega
        · rw [alookup_aupdate_ne _ _ hbs] at hB'
          by_cases hbd : hd.blk = b
          · rw [← hbd, alookup_aerase_self hinv.blocksNodup] at hB'
            cases hB'
          · rw [alookup_aerase_ne _ hbd] at hB'
            have h1 := hcnt b
            rw [if_neg hbd, if_neg hbs] at h1
            rw [hinv.refCountEq _ _ hB']
            dsimp only
            omega
      · intro b B' hB'
        by_cases hbs : hs.blk = b
        · subst hbs
          rw [alookup_aupdate_self] at hB'
          cases hB'
          dsimp only
          omega
        · rw [alookup_aupdate_ne _ _ hbs] at hB'
          by_cases hbd : hd.blk = b
          · rw [← hbd, alookup_aerase_self hinv.blocksNodup] at hB'
            cases hB'
          · rw [alookup_aerase_ne _ hbd] at hB'
            exact hinv.livePos _ _ hB'
      · intro h₂ hs₂ hl
        by_cases hEq : dst = h₂
        · rw [← hEq, alookup_aupdate_self] at hl
          cases hl
          refine ⟨⟨Bnew.refCount + 1, Bnew.isValid⟩, ?_⟩
          exact alookup_aupdate_self _ _ _
        · rw [alookup_aupdate_ne _ _ hEq] at hl
          have hne2 : hs₂.blk ≠ hd.blk :=
            hother _ _ (fun hEq₂ => hEq hEq₂.symm) hl
          by_cases hbs : hs.blk = hs₂.blk
          · refine ⟨⟨Bnew.refCount + 1, Bnew.isValid⟩, ?_⟩
            rw [← hbs]
            exact alookup_aupdate_self _ _ _
          · obtain ⟨B₂, hB₂⟩ := hinv.handleLive _ _ hl
            refine ⟨B₂, ?_⟩
            rw [alookup_aupdate_ne _ _ hbs, alookup_aerase_ne _ (Ne.symm hne2)]
            exact hB₂
      · intro h₁ hs₁ h₂ hs₂ hl₁ hl₂ ho₁ ho₂ hblk
        by_cases hEq₁ : dst = h₁
        · rw [← hEq₁, alookup_aupdate_self] at hl₁
          cases hl₁
          simp at ho₁
        · by_cases hEq₂ : dst = h₂
          · rw [← hEq₂, alookup_aupdate_self] at hl₂
            cases hl₂
            simp at ho₂
          · rw [alookup_aupdate_ne _ _ hEq₁] at hl₁
            rw [alookup_aupdate_ne _ _ hEq₂] at hl₂
            exact hinv.origUnique _ _ _ _ hl₁ hl₂ ho₁ ho₂ hblk
      · intro h₂ hs₂ B' hl ho hB'
        by_cases hEq : dst = h₂
        · rw [← hEq, alookup_aupdate_self] at hl
          cases hl
          simp at ho
        · rw [alookup_aupdate_ne _ _ hEq] at hl
          have hne2 : hs₂.blk ≠ hd.blk :=
            hother _ _ (fun hEq₂ => hEq hEq₂.symm) hl
          by_cases hbs : hs.blk = hs₂.blk
          · have hBb : alookup s.blocks hs₂.blk = some Bnew := by
              rw [← hbs]; exact hBnewOld
            rw [← hbs, alookup_aupdate_self] at hB'
            cases hB'
            show Bnew.isValid = true
            exact hinv.origValid _ _ _ hl ho hBb
          · rw [alookup_aupdate_ne _ _ hbs, alookup_aerase_ne _ (Ne.symm hne2)] at hB'
            exact hinv.origValid _ _ _ hl ho hB'
    · -- release leaves the old block alive
      cases hBnew : alookup (aupdate s.blocks hd.blk
          (⟨Bold.refCount - 1, Bold.isValid⟩ : BlockSt)) hs.blk with
      | none => simp [stepAssign, hsame, hdst, hsrc, hBold, h0, hBnew] at hstep
      | some Bnew =>
      rw [stepAssign_eq_live hsame hdst hsrc hBold h0 hBnew] at hstep
      cases hstep
      have hkeys₁ : akeys (aupdate s.blocks hd.blk
          (⟨Bold.refCount - 1, Bold.isValid⟩ : BlockSt)) = akeys s.blocks :=
        akeys_aupdate_mem _ hdmem
      have hnewmem : hs.blk ∈ akeys (aupdate s.blocks hd.blk
          (⟨Bold.refCount - 1, Bold.isValid⟩ : BlockSt)) :=
        mem_akeys_of_alookup hBnew
      have hkeysB : akeys (aupdate (aupdate s.blocks hd.blk
          (⟨Bold.refCount - 1, Bold.isValid⟩ : BlockSt)) hs.blk
          (⟨Bnew.refCount + 1, Bnew.isValid⟩ : BlockSt))
          = akeys s.blocks := by
        rw [akeys_aupdate_mem _ hnewmem, hkeys₁]
      refine ⟨?_, ?_, ?_, ?_, ?_, ?_, ?_, ?_, ?_, ?_, ?_, ?_⟩
      · rw [hkeysB]; exact hinv.blocksNodup
      · rw [hkeysH]; exact hinv.handlesNodup
      · intro b hmem
        rw [hkeysB] at hmem
        exact hinv.blocksLt _ hmem
      · exact hinv.freedLt
      · exact hinv.freedNodup
      · intro b hmem
        rw [hkeysB] at hmem
        exact hinv.liveNotFreed _ hmem
      · intro b hb
        rcases hinv.allocated b hb with hL | hF
        · left; rw [hkeysB]; exact hL
        · right; exact hF
      · intro b B' hB'
        by_cases hbs : hs.blk = b
        · subst hbs
          rw [alookup_aupdate_self] at hB'
          cases hB'
          have h1 := hcnt hs.blk
          rw [if_pos rfl] at h1
          dsimp only
          by_cases hbd : hd.blk = hs.blk
          · rw [hbd, alookup_aupdate_self] at hBnew
            cases hBnew
            rw [if_pos hbd] at h1
            rw [hbd] at hrceq
            dsimp only
            omega
          · have hBn : alookup s.blocks hs.blk = some Bnew := by
              rw [← alookup_aupdate_ne s.blocks _ hbd]
              exact hBnew
            have h2 : Bnew.refCount = countH s.handles hs.blk :=
              hinv.refCountEq _ _ hBn
            rw [if_neg hbd] at h1
            omega
        · rw [alookup_aupdate_ne _ _ hbs] at hB'
          have h1 := hcnt b
          rw [if_neg hbs] at h1
          by_cases hbd : hd.blk = b
          · subst hbd
            rw [alookup_aupdate_self] at hB'
            cases hB'
            rw [if_pos rfl] at h1
            dsimp only
            omega
          · rw [alookup_aupdate_ne _ _ hbd] at hB'
            rw [if_neg hbd] at h1
            rw [hinv.refCountEq _ _ hB']
            dsimp only
            omega
      · intro b B' hB'
        by_cases hbs : hs.blk = b
        · subst hbs
          rw [alookup_aupdate_self] at hB'
          cases hB'
          dsimp only
          omega
        · rw [alookup_aupdate_ne _ _ hbs] at hB'
          by_cases hbd : hd.blk = b
          · subst hbd
            rw [alookup_aupdate_self] at hB'
            cases hB'
            dsimp only
            omega
          · rw [alookup_aupdate_ne _ _ hbd] at hB'
            exact hinv.livePos _ _ hB'
      · intro h₂ hs₂ hl
        by_cases hEq : dst = h₂
        · rw [← hEq, alookup_aupdate_self] at hl
          cases hl
          refine ⟨⟨Bnew.refCount + 1, Bnew.isValid⟩, ?_⟩
          exact alookup_aupdate_self _ _ _
        · rw [alookup_aupdate_ne _ _ hEq] at hl
          by_cases hbs : hs.blk = hs₂.blk
          · refine ⟨⟨Bnew.refCount + 1, Bnew.isValid⟩, ?_⟩
            rw [← hbs]
            exact alookup_aupdate_self _ _ _
          · by_cases hbd : hd.blk = hs₂.blk
            · refine ⟨⟨Bold.refCount - 1, Bold.isValid⟩, ?_⟩
              rw [alookup_aupdate_ne _ _ hbs, ← hbd]
              exact alookup_aupdate_self _ _ _
            · obtain ⟨B₂, hB₂⟩ := hinv.handleLive _ _ hl
              refine ⟨B₂, ?_⟩
              rw [alookup_aupdate_ne _ _ hbs, alookup_aupdate_ne _ _ hbd]
              exact hB₂
      · intro h₁ hs₁ h₂ hs₂ hl₁ hl₂ ho₁ ho₂ hblk
        by_cases hEq₁ : dst = h₁
        · rw [← hEq₁, alookup_aupdate_self] at hl₁
          cases hl₁
          simp at ho₁
        · by_cases hEq₂ : dst = h₂
          · rw [← hEq₂, alookup_aupdate_self] at hl₂
            cases hl₂
            simp at ho₂
          · rw [alookup_aupdate_ne _ _ hEq₁] at hl₁
            rw [alookup_aupdate_ne _ _ hEq₂] at hl₂
            exact hinv.origUnique _ _ _ _ hl₁ hl₂ ho₁ ho₂ hblk
      · intro h₂ hs₂ B' hl ho hB'
        by_cases hEq : dst = h₂
        · rw [← hEq, alookup_aupdate_self] at hl
          cases hl
          simp at ho
        · rw [alookup_aupdate_ne _ _ hEq] at hl
          by_cases hbs : hs.blk = hs₂.blk
          · rw [← hbs, alookup_aupdate_self] at hB'
            cases hB'
            show Bnew.isValid = true
            by_cases hbd : hd.blk = hs.blk
            · rw [hbd, alookup_aupdate_self] at hBnew
              cases hBnew
              show Bold.isValid = true
              have hBb : alookup s.blocks hs₂.blk = some Bold := by
                rw [← hbs, ← hbd]
                exact hBold
              exact hinv.origValid _ _ _ hl ho hBb
            · have hBn : alookup s.blocks hs.blk = some Bnew := by
                rw [← alookup_aupdate_ne s.blocks _ hbd]
                exact hBnew
              have hBb : alookup s.blocks hs₂.blk = some Bnew := by
                rw [← hbs]; exact hBn
              exact hinv.origValid _ _ _ hl ho hBb
          · rw [alookup_aupdate_ne _ _ hbs] at hB'
            by_cases hbd : hd.blk = hs₂.blk
            · rw [← hbd, alookup_aupdate_self] at hB'
              cases hB'
              show Bold.isValid = true
              have hBb : alookup s.blocks hs₂.blk = some Bold := by
                rw [← hbd]; exact hBold
              exact hinv.origValid _ _ _ hl ho hBb
            · rw [alookup_aupdate_ne _ _ hbd] at hB'
              exact hinv.origValid _ _ _ hl ho hB'

theorem step_inv {s s' : MVState} {op : Op}
    (hinv : Inv s) (hstep : step s op = some s') : Inv s' := by
  cases op with
  | create h => exact stepCreate_inv hinv hstep
  | copyFrom h src => exact stepCopy_inv hinv hstep
  | assign dst src => exact stepAssign_inv hinv hstep
  | destroy h => exact stepDestroy_inv hinv hstep

theorem run_inv {s s' : MVState} {ops : List Op}
    (hinv : Inv s) (hrun : run s ops = some s') : Inv s' := by
  induction ops generalizing s with
  | nil =>
    simp only [run] at hrun
    cases hrun
    exact hinv
  | cons op rest ih =>
    simp only [run] at hrun
    cases hstep : step s op with
    | none => rw [hstep] at hrun; cases hrun
    | some s₁ =>
      rw [hstep] at hrun
      exact ih (step_inv hinv hstep) hrun

theorem reaches_inv {s : MVState} (h : Reaches s) : Inv s := by
  obtain ⟨ops, hops⟩ := h
  exact run_inv inv_init hops

/-! Claim theorems. -/

/-- C3: in every reachable state, every live block's `*Counter` equals the
number of live handles pointing at it (default construction starts it at 1,
each copy-construction or assignment onto the block adds 1, each destruction
or assignment away subtracts 1), and is at least 1 — so the `--*Counter`
decrements never underflow and the count is never negative; and once every
handle has been destroyed, every block ever allocated appears exactly once
in the freed log, i.e. the shared block is freed exactly once regardless of
the destruction order. -/
theorem refCount_counts_live_handles_and_free_once (s : MVState)
    (hr : Reaches s) :
    (∀ b B, alookup s.blocks b = some B → B.refCount = countH s.handles b) ∧
    (∀ b B, alookup s.blocks b = some B → 1 ≤ B.refCount) ∧
    (s.handles = [] → ∀ b, b < s.nextBlock → s.freed.count b = 1) := by
  have hinv := reaches_inv hr
  refine ⟨hinv.refCountEq, hinv.livePos, ?_⟩
  intro hh b hb
  have hblocks : s.blocks = [] := by
    cases hbl : s.blocks with
    | nil => rfl
    | cons p rest =>
      obtain ⟨b₀, B₀⟩ := p
      have hl : alookup s.blocks b₀ = some B₀ := by
        rw [hbl, alookup_cons, if_pos rfl]
      have h1 := hinv.livePos _ _ hl
      have h2 := hinv.refCountEq _ _ hl
      rw [hh, countH_nil] at h2
      omega
  rcases hinv.allocated b hb with hL | hF
  · rw [hblocks, akeys_nil] at hL
    simp at hL
  · exact List.count_eq_one_of_mem hinv.freedNodup hF

/-- Witness for C3: the state reached by making two copies of one
original and destroying the three handles in the order copy, original,
copy satisfies all three conclusions. -/
theorem refCount_counts_live_handles_and_free_once_witness :
    (∀ b B, alookup (MVState.mk [] [] 1 [0]).blocks b = some B →
      B.refCount = countH (MVState.mk [] [] 1 [0]).handles b) ∧
    (∀ b B, alookup (MVState.mk [] [] 1 [0]).blocks b = some B →
      1 ≤ B.refCount) ∧
    ((MVState.mk [] [] 1 [0]).handles = [] →
      ∀ b, b < (MVState.mk [] [] 1 [0]).nextBlock →
        (MVState.mk [] [] 1 [0]).freed.count b = 1) :=
  refCount_counts_live_handles_and_free_once (MVState.mk [] [] 1 [0])
    ⟨[Op.create 0, Op.copyFrom 1 0, Op.copyFrom 2 0,
      Op.destroy 1, Op.destroy 0, Op.destroy 2], by decide⟩

/-- C4: the `this != &other` guard (line 68 of the source) makes
self-assignment `h = h` a detected no-op: the state is returned entirely
unchanged, so no release and no re-link happen and the block's refCount
and isValid and the handle's isOriginal are all left as they were. -/
theorem self_assign_is_noop (s : MVState) (h : Nat) (hs : HandleSt)
    (hh : alookup s.handles h = some hs) :
    step s (Op.assign h h) = some s :=
  stepAssign_self hh

/-- Witness for C4: self-assigning the copy handle in the two-handle
state leaves the state untouched. -/
theorem self_assign_is_noop_witness :
    step (MVState.mk [(0, ⟨2, true⟩)] [(1, ⟨0, false⟩), (0, ⟨0, true⟩)] 1 [])
      (Op.assign 1 1) =
    some (MVState.mk [(0, ⟨2, true⟩)] [(1, ⟨0, false⟩), (0, ⟨0, true⟩)] 1 []) :=
  self_assign_is_noop _ 1 ⟨0, false⟩ (by decide)

/-- C7: copy-construction from a live source handle links the new handle
to the source's block with `isOriginal = false`, increments that block's
refCount by exactly one while leaving its isValid untouched, leaves every
other block untouched, frees nothing, and leaves the copied-from handle
entirely unchanged. -/
theorem copy_construction_effect (s : MVState) (h src : Nat) (hs : HandleSt)
    (B : BlockSt)
    (hfresh : alookup s.handles h = none)
    (hsrc : alookup s.handles src = some hs)
    (hB : alookup s.blocks hs.blk = some B) :
    ∃ s', step s (Op.copyFrom h src) = some s' ∧
      alookup s'.handles h = some ⟨hs.blk, false⟩ ∧
      alookup s'.handles src = some hs ∧
      alookup s'.blocks hs.blk = some ⟨B.refCount + 1, B.isValid⟩ ∧
      (∀ b, b ≠ hs.blk → alookup s'.blocks b = alookup s.blocks b) ∧
      s'.freed = s.freed := by
  have hne : h ≠ src := by
    intro hEq
    rw [hEq, hsrc] at hfresh
    cases hfresh
  refine ⟨⟨aupdate s.blocks hs.blk ⟨B.refCount + 1, B.isValid⟩,
    (h, ⟨hs.blk, false⟩) :: s.handles, s.nextBlock, s.freed⟩,
    ?_, ?_, ?_, ?_, ?_, ?_⟩
  · exact stepCopy_eq hfresh hsrc hB
  · show alookup ((h, ⟨hs.blk, false⟩) :: s.handles) h = _
    rw [alookup_cons, if_pos rfl]
  · show alookup ((h, ⟨hs.blk, false⟩) :: s.handles) src = _
    rw [alookup_cons, if_neg hne]
    exact hsrc
  · exact alookup_aupdate_self _ _ _
  · intro b hb
    exact alookup_aupdate_ne _ _ fun hEq => hb hEq.symm
  · rfl

/-- Witness for C7: copy-constructing handle 1 from the fresh original
handle 0 exhibits every conclusion. -/
theorem copy_construction_effect_witness :
    ∃ s', step (MVState.mk [(0, ⟨1, true⟩)] [(0, ⟨0, true⟩)] 1 [])
        (Op.copyFrom 1 0) = some s' ∧
      alookup s'.handles 1 = some ⟨0, false⟩ ∧
      alookup s'.handles 0 = some ⟨0, true⟩ ∧
      alookup s'.blocks 0 = some ⟨2, true⟩ ∧
      (∀ b, b ≠ 0 →
        alookup s'.blocks b =
          alookup (MVState.mk [(0, ⟨1, true⟩)] [(0, ⟨0, true⟩)] 1 []).blocks b) ∧
      s'.freed = (MVState.mk [(0, ⟨1, true⟩)] [(0, ⟨0, true⟩)] 1 []).freed :=
  copy_construction_effect _ 1 0 ⟨0, true⟩ ⟨1, true⟩
    (by decide) (by decide) (by decide)

/-- C10: assigning between two distinct live handles that already share
one block (whose refCount is hence at least 2) leaves that block's entry
— refCount and isValid both — unchanged overall (the decrement of the
release is undone by the increment of the re-link), frees nothing, leaves
all other blocks untouched, and clears the target handle's isOriginal. -/
theorem assign_between_same_block_handles (s : MVState) (dst src : Nat)
    (hd hs : HandleSt) (B : BlockSt)
    (hne : dst ≠ src)
    (hdst : alookup s.handles dst = some hd)
    (hsrc : alookup s.handles src = some hs)
    (hsame : hs.blk = hd.blk)
    (hB : alookup s.blocks hd.blk = some B)
    (h2 : 2 ≤ B.refCount) :
    ∃ s', step s (Op.assign dst src) = some s' ∧
      alookup s'.blocks hd.blk = some B ∧
      (∀ b, b ≠ hd.blk → alookup s'.blocks b = alookup s.blocks b) ∧
      s'.freed = s.freed ∧
      alookup s'.handles dst = some ⟨hd.blk, false⟩ := by
  have h0 : B.refCount - 1 ≠ 0 := by omega
  have hBnew : alookup (aupdate s.blocks hd.blk ⟨B.refCount - 1, B.isValid⟩)
      hs.blk = some ⟨B.refCount - 1, B.isValid⟩ := by
    rw [hsame]
    exact alookup_aupdate_self _ _ _
  refine ⟨⟨aupdate (aupdate s.blocks hd.blk ⟨B.refCount - 1, B.isValid⟩)
      hs.blk ⟨B.refCount - 1 + 1, B.isValid⟩,
    aupdate s.handles dst ⟨hs.blk, false⟩, s.nextBlock, s.freed⟩,
    ?_, ?_, ?_, ?_, ?_⟩
  · exact stepAssign_eq_live hne hdst hsrc hB h0 hBnew
  · show alookup (aupdate (aupdate s.blocks hd.blk ⟨B.refCount - 1, B.isValid⟩)
        hs.blk ⟨B.refCount - 1 + 1, B.isValid⟩) hd.blk = some B
    rw [hsame, alookup_aupdate_self]
    have hrc : B.refCount - 1 + 1 = B.refCount := by omega
    rw [hrc]
  · intro b hb
    show alookup (aupdate (aupdate s.blocks hd.blk ⟨B.refCount - 1, B.isValid⟩)
        hs.blk ⟨B.refCount - 1 + 1, B.isValid⟩) b = alookup s.blocks b
    rw [alookup_aupdate_ne _ _ (fun hEq => hb (hsame ▸ hEq.symm)),
      alookup_aupdate_ne _ _ fun hEq => hb hEq.symm]
  · rfl
  · show alookup (aupdate s.handles dst ⟨hs.blk, false⟩) dst = some ⟨hd.blk, false⟩
    rw [hsame]
    exact alookup_aupdate_self _ _ _

/-- Witness for C10: in the two-handle state, assigning the original
handle 0 from the copy handle 1 (both on block 0, refCount 2) keeps block
0 at `⟨2, true⟩`, frees nothing, and clears handle 0's isOriginal. -/
theorem assign_between_same_block_handles_witness :
    ∃ s', step (MVState.mk [(0, ⟨2, true⟩)]
        [(1, ⟨0, false⟩), (0, ⟨0, true⟩)] 1 []) (Op.assign 0 1) = some s' ∧
      alookup s'.blocks 0 = some ⟨2, true⟩ ∧
      (∀ b, b ≠ 0 → alookup s'.blocks b =
        alookup (MVState.mk [(0, ⟨2, true⟩)]
          [(1, ⟨0, false⟩), (0, ⟨0, true⟩)] 1 []).blocks b) ∧
      s'.freed = (MVState.mk [(0, ⟨2, true⟩)]
        [(1, ⟨0, false⟩), (0, ⟨0, true⟩)] 1 []).freed ∧
      alookup s'.handles 0 = some ⟨0, false⟩ :=
  assign_between_same_block_handles _ 0 1 ⟨0, true⟩ ⟨0, false⟩ ⟨2, true⟩
    (by decide) (by decide) (by decide) (by decide) (by decide) (by decide)

/-- Every destructor run is bracketed by the lock and unlock of the
block's own mutex: the first executed statement is `Mtx->lock()` and the
last is `Mtx->unlock()`. -/
theorem destructorEvents_bracket (o : Bool) (n : Nat) :
    ∃ mid, destructorEvents o n = Ev.lockMtx :: (mid ++ [Ev.unlockMtx]) := by
  cases o with
  | false =>
    by_cases h0 : n = 0
    · exact ⟨[Ev.decCounter, Ev.freeMtx, Ev.freeCounter, Ev.freeIsValid],
        by simp [destructorEvents, h0]⟩
    · exact ⟨[Ev.decCounter], by simp [destructorEvents, h0]⟩
  | true =>
    by_cases h0 : n = 0
    · exact ⟨[Ev.setInvalid, Ev.decCounter, Ev.freeMtx, Ev.freeCounter,
        Ev.freeIsValid], by simp [destructorEvents, h0]⟩
    · exact ⟨[Ev.setInvalid, Ev.decCounter], by simp [destructorEvents, h0]⟩

/-- In the destructor of an original handle, the `*IsValid = false` store
is executed strictly before the `--*Counter` store, whatever the counter
value. -/
theorem destructorEvents_invalid_before_dec (n : Nat) :
    (destructorEvents true n).indexOf Ev.setInvalid
      < (destructorEvents true n).indexOf Ev.decCounter := by
  by_cases h0 : n = 0
  · rw [h0]; decide
  · have hev : destructorEvents true n =
        [Ev.lockMtx, Ev.setInvalid, Ev.decCounter, Ev.unlockMtx] := by
      simp [destructorEvents, h0]
    rw [hev]; decide

/-- The three `delete` statements of the destructor are executed if and
only if the decremented counter reached zero. -/
theorem destructorEvents_free_iff (o : Bool) (n : Nat) :
    Ev.freeMtx ∈ destructorEvents o n ↔ n = 0 := by
  by_cases h0 : n = 0
  · subst h0
    cases o <;> decide
  · simp [destructorEvents, h0]

/-- C6: destruction of a live handle performs, under the bracket of the
block's own lock (first event `Mtx->lock()`, last `Mtx->unlock()`):
the `*IsValid = false` store — executed strictly before the decrement —
exactly when the handle's isOriginal is set; then `--*Counter`; then the
three `delete`s exactly when the counter reached 0, in which case the
block disappears and its id is logged freed, and otherwise the block
survives with the decremented count and the conditionally cleared flag,
the handle being removed either way. -/
theorem destroy_order_and_effect (s : MVState) (h : Nat) (hs : HandleSt)
    (B : BlockSt)
    (hh : alookup s.handles h = some hs)
    (hB : alookup s.blocks hs.blk = some B) :
    (B.refCount - 1 = 0 →
      step s (Op.destroy h) =
        some ⟨aerase s.blocks hs.blk, aerase s.handles h, s.nextBlock,
              hs.blk :: s.freed⟩) ∧
    (B.refCount - 1 ≠ 0 →
      step s (Op.destroy h) =
        some ⟨aupdate s.blocks hs.blk
                ⟨B.refCount - 1, if hs.isOriginal then false else B.isValid⟩,
              aerase s.handles h, s.nextBlock, s.freed⟩) ∧
    (∃ mid, destructorEvents hs.isOriginal (B.refCount - 1) =
      Ev.lockMtx :: (mid ++ [Ev.unlockMtx])) ∧
    (hs.isOriginal = true →
      (destructorEvents hs.isOriginal (B.refCount - 1)).indexOf Ev.setInvalid
        < (destructorEvents hs.isOriginal (B.refCount - 1)).indexOf
            Ev.decCounter) ∧
    (Ev.setInvalid ∈ destructorEvents hs.isOriginal (B.refCount - 1) ↔
      hs.isOriginal = true) ∧
    (Ev.freeMtx ∈ destructorEvents hs.isOriginal (B.refCount - 1) ↔
      B.refCount - 1 = 0) := by
  refine ⟨fun h0 => stepDestroy_eq_free hh hB h0,
    fun h0 => stepDestroy_eq_live hh hB h0,
    destructorEvents_bracket _ _,
    fun ho => by rw [ho]; exact destructorEvents_invalid_before_dec _,
    ?_, destructorEvents_free_iff _ _⟩
  cases ho : hs.isOriginal <;> by_cases h0 : B.refCount - 1 = 0 <;>
    simp [destructorEvents, h0]

/-- Witness for C6: destroying the sole (original) handle of a fresh
block takes the free path, removing the block and logging it freed. -/
theorem destroy_order_and_effect_witness :
    step (MVState.mk [(0, ⟨1, true⟩)] [(0, ⟨0, true⟩)] 1 [])
      (Op.destroy 0) = some (MVState.mk [] [] 1 [0]) :=
  (destroy_order_and_effect _ 0 ⟨0, true⟩ ⟨1, true⟩
    (by decide) (by decide)).1 (by decide)

/-- C5: in the counter-reaches-zero path — of the destructor (lines
134-143) for either value of isOriginal, and of the assignment release
(lines 71-81) — the `delete Mtx` statement is sequenced strictly before
the `Mtx->unlock()` call, so that unlock is invoked on a mutex object
whose storage has already been freed (the latent use-after-free the spec
flags; a safe restructuring must unlock before freeing). -/
theorem delete_sequenced_before_unlock :
    ∀ o : Bool,
      (Ev.freeMtx ∈ destructorEvents o 0 ∧
        Ev.unlockMtx ∈ destructorEvents o 0 ∧
        (destructorEvents o 0).indexOf Ev.freeMtx
          < (destructorEvents o 0).indexOf Ev.unlockMtx) ∧
      (Ev.freeMtx ∈ assignReleaseEvents 0 ∧
        Ev.unlockMtx ∈ assignReleaseEvents 0 ∧
        (assignReleaseEvents 0).indexOf Ev.freeMtx
          < (assignReleaseEvents 0).indexOf Ev.unlockMtx) := by
  decide

/-- C8: the demonstration `main` — heap-allocate the original, copy it,
lock / print validity / unlock on the copy, delete the original, lock /
print / unlock again, copy destroyed at scope exit — writes exactly the
lines `1` then `0` to standard output and exits with code 0, the shared
block being freed exactly once at the end. -/
theorem main_prints_one_then_zero :
    mainDemo = some (⟨["1", "0"], 0⟩, ⟨[], [], 1, [0]⟩) := by
  decide

/-- C9: `TryLock` forwards to `recursive_mutex::try_lock`, a total
function that always returns at once: on an unlocked mutex it returns
`true` having acquired it for the caller; on a mutex held by another
thread it returns `false` leaving the mutex untouched — in the very
situation where `lock` (the blocking acquire) has no result to return,
i.e. would wait. -/
theorem tryLock_returns_immediately (m : RecMutex) (t : Nat) :
    (m.owner = none → tryLockMethod m t = (true, ⟨some t, 1⟩)) ∧
    (∀ o, m.owner = some o → o ≠ t →
      tryLockMethod m t = (false, m) ∧ RecMutex.lock m t = none) := by
  constructor
  · intro hfree
    simp [tryLockMethod, RecMutex.tryLock, hfree]
  · intro o ho hne
    constructor
    · simp [tryLockMethod, RecMutex.tryLock, ho, hne]
    · simp [RecMutex.lock, ho, hne]

/-- Witness for C9: thread 0 try-locks a free mutex successfully, and
try-locks a mutex held by thread 5 getting `false` with the mutex
unchanged while a blocking lock would wait. -/
theorem tryLock_returns_immediately_witness :
    tryLockMethod ⟨none, 0⟩ 0 = (true, ⟨some 0, 1⟩) ∧
    tryLockMethod ⟨some 5, 1⟩ 0 = (false, ⟨some 5, 1⟩) ∧
    RecMutex.lock ⟨some 5, 1⟩ 0 = none :=
  ⟨(tryLock_returns_immediately ⟨none, 0⟩ 0).1 rfl,
   ((tryLock_returns_immediately ⟨some 5, 1⟩ 0).2 5 rfl (by decide)).1,
   ((tryLock_returns_immediately ⟨some 5, 1⟩ 0).2 5 rfl (by decide)).2⟩

/-- C1 counterexample: in the reachable state where handle 0 is the
`isOriginal` handle of block 0 (shared with copy handle 1) and handle 2
owns block 1, the assignment `handle0 = handle2` replaces handle 0's
current block 0 by the different block 1, yet afterwards block 0 still
reads `⟨refCount 1, isValid true⟩`: the refCount was decremented but
isValid was NOT set to false, contradicting the claim that the
assignment-release path applies the mark-invalid-if-original rule. -/
theorem assign_release_keeps_isValid_cex :
    run initState [Op.create 0, Op.copyFrom 1 0, Op.create 2] =
      some ⟨[(1, ⟨1, true⟩), (0, ⟨2, true⟩)],
            [(2, ⟨1, true⟩), (1, ⟨0, false⟩), (0, ⟨0, true⟩)], 2, []⟩ ∧
    alookup [(2, (⟨1, true⟩ : HandleSt)), (1, ⟨0, false⟩), (0, ⟨0, true⟩)] 0 =
      some ⟨0, true⟩ ∧
    step ⟨[(1, ⟨1, true⟩), (0, ⟨2, true⟩)],
          [(2, ⟨1, true⟩), (1, ⟨0, false⟩), (0, ⟨0, true⟩)], 2, []⟩
        (Op.assign 0 2) =
      some ⟨[(1, ⟨2, true⟩), (0, ⟨1, true⟩)],
            [(2, ⟨1, true⟩), (1, ⟨0, false⟩), (0, ⟨1, false⟩)], 2, []⟩ ∧
    alookup [(1, (⟨2, true⟩ : BlockSt)), (0, ⟨1, true⟩)] 0 = some ⟨1, true⟩ := by
  decide

/-- C1 amended: when a copy-assignment replaces a handle's current block
with a different block and the old block survives the release, the old
block's refCount is decremented by one but its isValid flag is left
exactly as it was — the source's release path (lines 71-81) contains no
`if (IsOriginal) *IsValid = false`; only the destructor applies the
mark-invalid-if-original rule. -/
theorem assign_release_decrements_without_invalidating
    (s s' : MVState) (dst src : Nat) (hd hs : HandleSt) (B B' : BlockSt)
    (hn : (akeys s.blocks).Nodup)
    (hne : dst ≠ src)
    (hdst : alookup s.handles dst = some hd)
    (hsrc : alookup s.handles src = some hs)
    (hbne : hs.blk ≠ hd.blk)
    (hB : alookup s.blocks hd.blk = some B)
    (hstep : step s (Op.assign dst src) = some s')
    (hB' : alookup s'.blocks hd.blk = some B') :
    B'.isValid = B.isValid ∧ B'.refCount = B.refCount - 1 := by
  by_cases h0 : B.refCount - 1 = 0
  · cases hsb : alookup s.blocks hs.blk with
    | none =>
      have hnone : alookup (aerase s.blocks hd.blk) hs.blk = none := by
        rw [alookup_aerase_ne _ (Ne.symm hbne)]
        exact hsb
      simp [step, stepAssign, hne, hdst, hsrc, hB, h0, hnone] at hstep
    | some Bnew =>
      have hsome : alookup (aerase s.blocks hd.blk) hs.blk = some Bnew := by
        rw [alookup_aerase_ne _ (Ne.symm hbne)]
        exact hsb
      have hstep' : stepAssign s dst src = some s' := hstep
      rw [stepAssign_eq_free hne hdst hsrc hB h0 hsome] at hstep'
      cases hstep'
      rw [alookup_aupdate_ne _ _ hbne, alookup_aerase_self hn] at hB'
      cases hB'
  · cases hsb : alookup s.blocks hs.blk with
    | none =>
      have hnone : alookup (aupdate s.blocks hd.blk
          ⟨B.refCount - 1, B.isValid⟩) hs.blk = none := by
        rw [alookup_aupdate_ne _ _ fun hEq => hbne hEq.symm]
        exact hsb
      simp [step, stepAssign, hne, hdst, hsrc, hB, h0, hnone] at hstep
    | some Bnew =>
      have hsome : alookup (aupdate s.blocks hd.blk
          ⟨B.refCount - 1, B.isValid⟩) hs.blk = some Bnew := by
        rw [alookup_aupdate_ne _ _ fun hEq => hbne hEq.symm]
        exact hsb
      have hstep' : stepAssign s dst src = some s' := hstep
      rw [stepAssign_eq_live hne hdst hsrc hB h0 hsome] at hstep'
      cases hstep'
      rw [alookup_aupdate_ne _ _ hbne, alookup_aupdate_self] at hB'
      cases hB'
      exact ⟨rfl, rfl⟩

/-- Witness for the amended C1: in the three-handle state, assigning the
original handle 0 (on block 0, refCount 2, shared with handle 1) from
handle 2 (on block 1) leaves block 0 at isValid `true` with refCount 1. -/
theorem assign_release_decrements_without_invalidating_witness :
    ((⟨1, true⟩ : BlockSt).isValid = (⟨2, true⟩ : BlockSt).isValid) ∧
    ((⟨1, true⟩ : BlockSt).refCount = (⟨2, true⟩ : BlockSt).refCount - 1) :=
  assign_release_decrements_without_invalidating
    ⟨[(1, ⟨1, true⟩), (0, ⟨2, true⟩)],
     [(2, ⟨1, true⟩), (1, ⟨0, false⟩), (0, ⟨0, true⟩)], 2, []⟩
    ⟨[(1, ⟨2, true⟩), (0, ⟨1, true⟩)],
     [(2, ⟨1, true⟩), (1, ⟨0, false⟩), (0, ⟨1, false⟩)], 2, []⟩
    0 2 ⟨0, true⟩ ⟨1, true⟩ ⟨2, true⟩ ⟨1, true⟩
    (by decide) (by decide) (by decide) (by decide) (by decide) (by decide)
    (by decide) (by decide)

/-- C2 counterexample: handles 0 (original) and 1 (copy) share block 0;
handle 0 — the isOriginal handle — is then *released* from block 0 by the
assignment `handle0 = handle2`, and block 0's isValid stays `true`; when
the last holder (copy handle 1) is destroyed, block 0 is freed with its
flag still `true`.  So over this sequence the shared flag transitions
true→false zero times although the original was released, refuting both
the "exactly once" and the "triggered by destruction or release" parts
of the claim. -/
theorem isValid_never_flips_on_release_cex :
    alookup [(2, (⟨1, true⟩ : HandleSt)), (1, ⟨0, false⟩), (0, ⟨0, true⟩)] 0 =
      some ⟨0, true⟩ ∧
    run initState [Op.create 0, Op.copyFrom 1 0, Op.create 2, Op.assign 0 2] =
      some ⟨[(1, ⟨2, true⟩), (0, ⟨1, true⟩)],
            [(2, ⟨1, true⟩), (1, ⟨0, false⟩), (0, ⟨1, false⟩)], 2, []⟩ ∧
    run initState [Op.create 0, Op.copyFrom 1 0, Op.create 2, Op.assign 0 2,
        Op.destroy 1] =
      some ⟨[(1, ⟨2, true⟩)], [(2, ⟨1, true⟩), (0, ⟨1, false⟩)], 2, [0]⟩ := by
  decide

/-- Helper packaging the two C2 conclusions for every step that provably
leaves the flag unchanged and is not a destroy-the-original trigger. -/
theorem flip_aux {P : Prop} {B B' : BlockSt}
    (hEq : B'.isValid = B.isValid) (hnp : ¬P) :
    (B.isValid = true ∧ B'.isValid = false ↔ P) ∧
    (B.isValid = false → B'.isValid = false) := by
  refine ⟨⟨?_, fun hp => absurd hp hnp⟩, ?_⟩
  · rintro ⟨h1, h2⟩
    rw [hEq, h1] at h2
    cases h2
  · intro h1
    rw [hEq, h1]

/-- C2 amended: over any single operation from a well-formed state, a
surviving block's isValid makes the transition true→false exactly when
the operation is the destruction of a live handle that is the block's
isOriginal handle — never at the destruction of a copy, never at a copy
construction or an assignment (in particular not at the release of the
original by assignment, after which the flag can never flip at all) —
and the flag never goes back from false to true. -/
theorem isValid_flip_iff_destroy_original (s s' : MVState) (op : Op) (b : Nat)
    (B B' : BlockSt)
    (hinv : Inv s)
    (hstep : step s op = some s')
    (hB : alookup s.blocks b = some B)
    (hB' : alookup s'.blocks b = some B') :
    (B.isValid = true ∧ B'.isValid = false ↔
      ∃ h hs, op = Op.destroy h ∧ alookup s.handles h = some hs ∧
        hs.blk = b ∧ hs.isOriginal = true) ∧
    (B.isValid = false → B'.isValid = false) := by
  cases op with
  | create h₀ =>
    cases hfresh : alookup s.handles h₀ with
    | some _ => simp [step, stepCreate, hfresh] at hstep
    | none =>
      have hstep' : stepCreate s h₀ = some s' := hstep
      rw [stepCreate_eq hfresh] at hstep'
      cases hstep'
      have hbne : s.nextBlock ≠ b := by
        have := hinv.blocksLt _ (mem_akeys_of_alookup hB)
        omega
      rw [alookup_cons, if_neg hbne, hB] at hB'
      cases hB'
      exact flip_aux rfl (by rintro ⟨h, hs, hop, -⟩; cases hop)
  | copyFrom h₀ src =>
    cases hfresh : alookup s.handles h₀ with
    | some _ => simp [step, stepCopy, hfresh] at hstep
    | none =>
    cases hsrc : alookup s.handles src with
    | none => simp [step, stepCopy, hfresh, hsrc] at hstep
    | some hs₀ =>
    cases hBs : alookup s.blocks hs₀.blk with
    | none => simp [step, stepCopy, hfresh, hsrc, hBs] at hstep
    | some Bs =>
    have hstep' : stepCopy s h₀ src = some s' := hstep
    rw [stepCopy_eq hfresh hsrc hBs] at hstep'
    cases hstep'
    by_cases hbs : hs₀.blk = b
    · subst hbs
      rw [alookup_aupdate_self] at hB'
      cases hB'
      rw [hB] at hBs
      cases hBs
      exact flip_aux rfl (by rintro ⟨h, hs, hop, -⟩; cases hop)
    · rw [alookup_aupdate_ne _ _ hbs, hB] at hB'
      cases hB'
      exact flip_aux rfl (by rintro ⟨h, hs, hop, -⟩; cases hop)
  | assign dst src =>
    by_cases hsame : dst = src
    · subst hsame
      cases hd : alookup s.handles dst with
      | none => simp [step, stepAssign, hd] at hstep
      | some _ =>
        have hstep' : stepAssign s dst dst = some s' := hstep
        rw [stepAssign_self hd] at hstep'
        cases hstep'
        rw [hB] at hB'
        cases hB'
        exact flip_aux rfl (by rintro ⟨h, hs, hop, -⟩; cases hop)
    · cases hdst : alookup s.handles dst with
      | none => simp [step, stepAssign, hsame, hdst] at hstep
      | some hd =>
      cases hsrc : alookup s.handles src with
      | none => simp [step, stepAssign, hsame, hdst, hsrc] at hstep
      | some hs₀ =>
      cases hBold : alookup s.blocks hd.blk with
      | none => simp [step, stepAssign, hsame, hdst, hsrc, hBold] at hstep
      | some Bold =>
      by_cases h0 : Bold.refCount - 1 = 0
      · cases hBnew : alookup (aerase s.blocks hd.blk) hs₀.blk with
        | none =>
          simp [step, stepAssign, hsame, hdst, hsrc, hBold, h0, hBnew] at hstep
        | some Bnew =>
        have hstep' : stepAssign s dst src = some s' := hstep
        rw [stepAssign_eq_free hsame hdst hsrc hBold h0 hBnew] at hstep'
        cases hstep'
        by_cases hbs : hs₀.blk = b
        · subst hbs
          rw [alookup_aupdate_self] at hB'
          cases hB'
          have hbne : hs₀.blk ≠ hd.blk := by
            intro hEq
            rw [hEq, alookup_aerase_self hinv.blocksNodup] at hBnew
            cases hBnew
          rw [alookup_aerase_ne _ (Ne.symm hbne), hB] at hBnew
          cases hBnew
          exact flip_aux rfl (by rintro ⟨h, hs, hop, -⟩; cases hop)
        · rw [alookup_aupdate_ne _ _ hbs] at hB'
          by_cases hbd : hd.blk = b
          · rw [← hbd, alookup_aerase_self hinv.blocksNodup] at hB'
            cases hB'
          · rw [alookup_aerase_ne _ hbd, hB] at hB'
            cases hB'
            exact flip_aux rfl (by rintro ⟨h, hs, hop, -⟩; cases hop)
      · cases hBnew : alookup (aupdate s.blocks hd.blk
            ⟨Bold.refCount - 1, Bold.isValid⟩) hs₀.blk with
        | none =>
          simp [step, stepAssign, hsame, hdst, hsrc, hBold, h0, hBnew] at hstep
        | some Bnew =>
        have hstep' : stepAssign s dst src = some s' := hstep
        rw [stepAssign_eq_live hsame hdst hsrc hBold h0 hBnew] at hstep'
        cases hstep'
        by_cases hbs : hs₀.blk = b
        · subst hbs
          rw [alookup_aupdate_self] at hB'
          cases hB'
          by_cases hbd : hd.blk = hs₀.blk
          · rw [hbd, alookup_aupdate_self] at hBnew
            cases hBnew
            rw [hbd, hB] at hBold
            cases hBold
            exact flip_aux rfl (by rintro ⟨h, hs, hop, -⟩; cases hop)
          · rw [alookup_aupdate_ne _ _ hbd, hB] at hBnew
            cases hBnew
            exact flip_aux rfl (by rintro ⟨h, hs, hop, -⟩; cases hop)
        · rw [alookup_aupdate_ne _ _ hbs] at hB'
          by_cases hbd : hd.blk = b
          · rw [← hbd, alookup_aupdate_self] at hB'
            cases hB'
            rw [hbd, hB] at hBold
            cases hBold
            exact flip_aux rfl (by rintro ⟨h, hs, hop, -⟩; cases hop)
          · rw [alookup_aupdate_ne _ _ hbd, hB] at hB'
            cases hB'
            exact flip_aux rfl (by rintro ⟨h, hs, hop, -⟩; cases hop)
  | destroy h₀ =>
    cases hh : alookup s.handles h₀ with
    | none => simp [step, stepDestroy, hh] at hstep
    | some hs₀ =>
    cases hBd : alookup s.blocks hs₀.blk with
    | none => simp [step, stepDestroy, hh, hBd] at hstep
    | some Bd =>
    by_cases h0 : Bd.refCount - 1 = 0
    · have hstep' : stepDestroy s h₀ = some s' := hstep
      rw [stepDestroy_eq_free hh hBd h0] at hstep'
      cases hstep'
      by_cases hbd : hs₀.blk = b
      · rw [← hbd, alookup_aerase_self hinv.blocksNodup] at hB'
        cases hB'
      · rw [alookup_aerase_ne _ hbd, hB] at hB'
        cases hB'
        refine flip_aux rfl ?_
        rintro ⟨h₁, hs₁, hop, hl₁, hblk₁, -⟩
        cases hop
        rw [hh] at hl₁
        cases hl₁
        exact hbd hblk₁
    · have hstep' : stepDestroy s h₀ = some s' := hstep
      rw [stepDestroy_eq_live hh hBd h0] at hstep'
      cases hstep'
      by_cases hbd : hs₀.blk = b
      · rw [hbd, hB] at hBd
        cases hBd
        rw [← hbd, alookup_aupdate_self] at hB'
        cases hB'
        cases horig : hs₀.isOriginal with
        | true =>
          have hvalid : B.isValid = true :=
            hinv.origValid h₀ hs₀ B hh horig (by rw [hbd]; exact hB)
          refine ⟨⟨fun _ => ⟨h₀, hs₀, rfl, hh, hbd, horig⟩,
            fun _ => ⟨hvalid, by simp⟩⟩, ?_⟩
          intro hfalse
          rw [hvalid] at hfalse
          cases hfalse
        | false =>
          refine flip_aux (by simp) ?_
          rintro ⟨h₁, hs₁, hop, hl₁, hblk₁, horig₁⟩
          cases hop
          rw [hh] at hl₁
          cases hl₁
          rw [horig] at horig₁
          cases horig₁
      · rw [alookup_aupdate_ne _ _ hbd, hB] at hB'
        cases hB'
        refine flip_aux rfl ?_
        rintro ⟨h₁, hs₁, hop, hl₁, hblk₁, -⟩
        cases hop
        rw [hh] at hl₁
        cases hl₁
        exact hbd hblk₁

/-- Witness for the amended C2: destroying the original handle 0 in the
two-handle state flips block 0's flag from true to false, and the
characterizing existential holds with handle 0 itself. -/
theorem isValid_flip_iff_destroy_original_witness :
    ((⟨2, true⟩ : BlockSt).isValid = true ∧
        (⟨1, false⟩ : BlockSt).isValid = false ↔
      ∃ h hs, Op.destroy 0 = Op.destroy h ∧
        alookup [(1, (⟨0, false⟩ : HandleSt)), (0, ⟨0, true⟩)] h = some hs ∧
        hs.blk = 0 ∧ hs.isOriginal = true) ∧
    ((⟨2, true⟩ : BlockSt).isValid = false →
      (⟨1, false⟩ : BlockSt).isValid = false) :=
  isValid_flip_iff_destroy_original
    ⟨[(0, ⟨2, true⟩)], [(1, ⟨0, false⟩), (0, ⟨0, true⟩)], 1, []⟩
    ⟨[(0, ⟨1, false⟩)], [(1, ⟨0, false⟩)], 1, []⟩
    (Op.destroy 0) 0 ⟨2, true⟩ ⟨1, false⟩
    (reaches_inv ⟨[Op.create 0, Op.copyFrom 1 0], by decide⟩)
    (by decide) (by decide) (by decide)

end MutexValidator

